import Mathlib

/-!
# Revel request-lifecycle core: validation, parameters, field helper, db plugin

A shallow embedding of `validation.go`, `params.go`, `field.go` and
`modules/db/app/db.go`, followed by theorems about the embedded code.

Conventions of the embedding

* A Go `string` is a sequence of bytes (`GoString`).
* A Go `map[string]T` is an association list with unique keys (`GoMap T`);
  a lookup of a missing key yields `none` (Go: `_, ok := m[k]` with `ok = false`).
* `*ValidationError` values live in an explicit heap (`Heap`); a pointer is the
  index of its cell.  A function that dereferences a pointer returns `none`
  when the cell does not exist (a Go nil-pointer panic).
* A Go panic is the `none` of an `Option` result (or a panic constructor of `Outcome`).
-/

namespace Revel

/-! ## Strings and maps -/

/-- One byte of a Go string. -/
abbrev Byte := Fin 256

/-- Go `string`: an immutable byte sequence. -/
abbrev GoString := List Byte

/-- Byte string of a Lean string literal whose characters are all ASCII. -/
def str (s : String) : GoString :=
  s.toList.map (fun c => Fin.ofNat c.toNat)

/-- Go `map[string]T`, as an association list whose keys are pairwise distinct. -/
abbrev GoMap (T : Type) := List (GoString × T)

/-- Go `v, ok := m[k]`. -/
def GoMap.lookup {T : Type} : GoMap T → GoString → Option T
  | [], _ => none
  | (k', t) :: rest, k => if k' = k then some t else GoMap.lookup rest k

/-- Go `m[k] = t`. -/
def GoMap.set {T : Type} : GoMap T → GoString → T → GoMap T
  | [], k, t => [(k, t)]
  | (k', t') :: rest, k, t =>
    if k' = k then (k, t) :: rest else (k', t') :: GoMap.set rest k t

/-! ## validation.go: data model -/

/-- Go `type ValidationError struct { Message, Key string }`. -/
structure ValidationError where
  Message : GoString
  Key : GoString
deriving DecidableEq, Repr

/-- Go `(e *ValidationError) String()`; `none` is the nil pointer. -/
def ValidationError.String : Option ValidationError → GoString
  | none => []
  | some e => e.Message

/-- Address of a `ValidationError` cell. -/
abbrev Ptr := Nat

/-- The cells allocated so far by `&ValidationError{...}`; cell `i` has address `i`. -/
structure Heap where
  cells : List ValidationError
deriving DecidableEq, Repr

/-- Go `&ValidationError{...}`: a fresh cell, whose address is returned. -/
def Heap.alloc (h : Heap) (e : ValidationError) : Ptr × Heap :=
  (h.cells.length, ⟨h.cells ++ [e]⟩)

/-- Go `*p`. -/
def Heap.read (h : Heap) (p : Ptr) : Option ValidationError :=
  h.cells.get? p

/-- Go `*p = e`. -/
def Heap.write (h : Heap) (p : Ptr) (e : ValidationError) : Heap :=
  ⟨h.cells.set p e⟩

/-- Go `type Validation struct { Errors []*ValidationError; keep bool }`. -/
structure Validation where
  Errors : List Ptr
  keep : Bool
deriving DecidableEq, Repr

/-- Go `type ValidationResult struct { Error *ValidationError; Ok bool }`;
`Error = none` is the nil pointer. -/
structure ValidationResult where
  Error : Option Ptr
  Ok : Bool
deriving DecidableEq, Repr

/-- Go `interface Validator { IsSatisfied(interface{}) bool; DefaultMessage() string }`
over checked values of type `Obj`. -/
structure Validator (Obj : Type) where
  IsSatisfied : Obj → Bool
  DefaultMessage : GoString

/-- Go `var DefaultValidationKeys map[string]map[int]string`. -/
abbrev ValidationKeys := GoMap (List (Int × GoString))

/-- Go `defaultKeys[line]` on a `map[int]string`: the zero value `""` when absent. -/
def lineKey : List (Int × GoString) → Int → GoString
  | [], _ => []
  | (l, k) :: rest, line => if l = line then k else lineKey rest line

/-- What `runtime.Caller(2)` and `runtime.FuncForPC` report: the calling function's
name and line, or `none` when the caller information is unavailable. -/
abbrev CallSite := Option (GoString × Int)

/-! ## validation.go: operations -/

/-- Go `(v *Validation) Keep()`. -/
def Validation.Keep (v : Validation) : Validation :=
  { v with keep := true }

/-- Go `(v *Validation) Clear()`. -/
def Validation.Clear (v : Validation) : Validation :=
  { v with Errors := [] }

/-- Go `(v *Validation) HasErrors()`. -/
def Validation.HasErrors (v : Validation) : Bool :=
  decide (v.Errors.length > 0)

/-- Loop of `ErrorMap`: `for _, e := range v.Errors { if _, ok := m[e.Key]; !ok { m[e.Key] = e } }`. -/
def Validation.ErrorMap.loop (h : Heap) : List Ptr → GoMap Ptr → Option (GoMap Ptr)
  | [], m => some m
  | e :: rest, m =>
    match h.read e with
    | none => none
    | some err =>
      match GoMap.lookup m err.Key with
      | some _ => Validation.ErrorMap.loop h rest m
      | none => Validation.ErrorMap.loop h rest (GoMap.set m err.Key e)

/-- Go `(v *Validation) ErrorMap()`. -/
def Validation.ErrorMap (h : Heap) (v : Validation) : Option (GoMap Ptr) :=
  Validation.ErrorMap.loop h v.Errors []

/-- Go `(r *ValidationResult) Key(key)`: writes through `r.Error` and returns `r`. -/
def ValidationResult.Key (h : Heap) (r : ValidationResult) (key : GoString) :
    Option (ValidationResult × Heap) :=
  match r.Error with
  | none => some (r, h)
  | some p =>
    match h.read p with
    | none => none
    | some e => some (r, h.write p { e with Key := key })

/-- Go `(r *ValidationResult) Message(message, args...)`: writes through `r.Error`
and returns `r`.  `sprintf` stands for `fmt.Sprintf(message, args)`, in which the
whole `args` slice is passed as the single operand. -/
def ValidationResult.Message {Arg : Type} (sprintf : GoString → List Arg → GoString)
    (h : Heap) (r : ValidationResult) (message : GoString) (args : List Arg) :
    Option (ValidationResult × Heap) :=
  match r.Error with
  | none => some (r, h)
  | some p =>
    match h.read p with
    | none => none
    | some e =>
      if args.length = 0 then some (r, h.write p { e with Message := message })
      else some (r, h.write p { e with Message := sprintf message args })

/-- Go `(v *Validation) Error(message, args...)`.  The variadic `args` slice is handed
to `Message` as ONE argument (`Message(message, args)`, not `args...`), so `Message`
always sees an argument list of length one, whose element is the slice `args`. -/
def Validation.Error {Arg : Type} (sprintf : GoString → List (List Arg) → GoString)
    (h : Heap) (v : Validation) (message : GoString) (args : List Arg) :
    Option (ValidationResult × Heap × Validation) :=
  let (p, h1) := h.alloc { Message := [], Key := [] }
  match ValidationResult.Message sprintf h1 { Error := some p, Ok := false } message [args] with
  | none => none
  | some (r, h2) => some (r, h2, v)

/-- Default key of `apply`: `DefaultValidationKeys[f.Name()][line]` when the caller is
known and its function has an entry, else `""`. -/
def defaultKey (keys : ValidationKeys) (caller : CallSite) : GoString :=
  match caller with
  | none => []
  | some (fn, line) =>
    match GoMap.lookup keys fn with
    | none => []
    | some defaultKeys => lineKey defaultKeys line

/-- Go `(v *Validation) apply(chk, obj)`. -/
def Validation.apply {Obj : Type} (keys : ValidationKeys) (caller : CallSite)
    (h : Heap) (v : Validation) (chk : Validator Obj) (obj : Obj) :
    ValidationResult × Heap × Validation :=
  if chk.IsSatisfied obj then
    ({ Error := none, Ok := true }, h, v)
  else
    let key := defaultKey keys caller
    let (err, h1) := h.alloc { Message := chk.DefaultMessage, Key := key }
    ({ Error := some err, Ok := false }, h1, { v with Errors := v.Errors ++ [err] })

/-- Loop of `Check`, started with the current `result` (`none` is the nil result). -/
def Validation.Check.loop {Obj : Type} (keys : ValidationKeys) (caller : CallSite)
    (obj : Obj) : List (Validator Obj) → Option ValidationResult → Heap → Validation →
    Option ValidationResult × Heap × Validation
  | [], result, h, v => (result, h, v)
  | check :: rest, _, h, v =>
    let (result, h1, v1) := Validation.apply keys caller h v check obj
    if !result.Ok then (some result, h1, v1)
    else Validation.Check.loop keys caller obj rest (some result) h1 v1

/-- Go `(v *Validation) Check(obj, checks...)`; the result `none` is the nil pointer. -/
def Validation.Check {Obj : Type} (keys : ValidationKeys) (caller : CallSite)
    (h : Heap) (v : Validation) (obj : Obj) (checks : List (Validator Obj)) :
    Option ValidationResult × Heap × Validation :=
  Validation.Check.loop keys caller obj checks none h v

/-! ## net/url (Go standard library): query escaping and query parsing -/

/-- Go `shouldEscape(c, encodeQueryComponent)`: only letters, digits and `-_.~`
are left as they are. -/
def shouldEscape (c : Byte) : Bool :=
  if (97 ≤ c.val ∧ c.val ≤ 122) ∨ (65 ≤ c.val ∧ c.val ≤ 90) ∨ (48 ≤ c.val ∧ c.val ≤ 57) then false
  else if c.val = 45 ∨ c.val = 95 ∨ c.val = 46 ∨ c.val = 126 then false
  else true

/-- Go `upperhex[n]` with `upperhex = "0123456789ABCDEF"`. -/
def upperhex (n : Nat) : Byte :=
  if n < 10 then Fin.ofNat (48 + n) else Fin.ofNat (55 + n)

/-- Go `url.QueryEscape`: a space becomes `+`, every other escaped byte `%XX`. -/
def QueryEscape : GoString → GoString
  | [] => []
  | c :: rest =>
    if shouldEscape c then
      if c.val = 32 then (43 : Byte) :: QueryEscape rest
      else (37 : Byte) :: upperhex (c.val / 16) :: upperhex (c.val % 16) :: QueryEscape rest
    else c :: QueryEscape rest

/-- Go `ishex`. -/
def ishex (c : Byte) : Bool :=
  (48 ≤ c.val ∧ c.val ≤ 57) ∨ (97 ≤ c.val ∧ c.val ≤ 102) ∨ (65 ≤ c.val ∧ c.val ≤ 70)

/-- Go `unhex`. -/
def unhex (c : Byte) : Nat :=
  if 48 ≤ c.val ∧ c.val ≤ 57 then c.val - 48
  else if 97 ≤ c.val ∧ c.val ≤ 102 then c.val - 97 + 10
  else if 65 ≤ c.val ∧ c.val ≤ 70 then c.val - 65 + 10
  else 0

/-- Go `url.QueryUnescape`: `none` is the `EscapeError` of a `%` that is not followed
by two hex digits (the returned string is then `""`). -/
def QueryUnescape : GoString → Option GoString
  | [] => some []
  | c :: rest =>
    if c.val = 37 then
      match rest with
      | h1 :: h2 :: rest2 =>
        if ishex h1 && ishex h2 then
          (QueryUnescape rest2).map (fun t => Fin.ofNat (unhex h1 * 16 + unhex h2) :: t)
        else none
      | _ => none
    else if c.val = 43 then (QueryUnescape rest).map (fun t => (32 : Byte) :: t)
    else (QueryUnescape rest).map (fun t => c :: t)

/-- Go `strings.Split(s, sep)` for a one-byte separator; `cur` is the piece being read. -/
def Split.go (sep : Byte) : GoString → GoString → List GoString
  | [], cur => [cur]
  | c :: rest, cur => if c = sep then cur :: Split.go sep rest [] else Split.go sep rest (cur ++ [c])

/-- Go `strings.Split(s, sep)` for a one-byte separator. -/
def Split (s : GoString) (sep : Byte) : List GoString :=
  Split.go sep s []

/-- Go `strings.Cut(s, sep)` for a one-byte separator: before, after, found. -/
def Cut (sep : Byte) : GoString → GoString × GoString × Bool
  | [] => ([], [], false)
  | c :: rest =>
    if c = sep then ([], rest, true)
    else
      let r := Cut sep rest
      (c :: r.1, r.2.1, r.2.2)

/-- Go `url.Values`, a `map[string][]string`. -/
abbrev Values := GoMap (List GoString)

/-- Go `v[key]` on `url.Values`: the values of the key in order, the nil (empty) slice
when the key is absent. -/
def Values.slice (v : Values) (key : GoString) : List GoString :=
  (GoMap.lookup v key).getD []

/-- Go `(v Values) Add(key, value)`: `v[key] = append(v[key], value)`. -/
def Values.Add (v : Values) (key value : GoString) : Values :=
  GoMap.set v key (Values.slice v key ++ [value])

/-- Body of the loop of Go `url.parseQuery` for one `&`-separated piece; the flag is
the error reported so far. -/
def parseQuery.piece (acc : Values × Bool) (piece : GoString) : Values × Bool :=
  if (59 : Byte) ∈ piece then (acc.1, true)
  else if piece = [] then acc
  else
    let kv := Cut 61 piece
    match QueryUnescape kv.1 with
    | none => (acc.1, true)
    | some key =>
      match QueryUnescape kv.2.1 with
      | none => (acc.1, true)
      | some value => (Values.Add acc.1 key value, acc.2)

/-- Go `url.ParseQuery`: the values parsed, and whether an error is returned. -/
def ParseQuery (query : GoString) : Values × Bool :=
  (Split query 38).foldl parseQuery.piece ([], false)

/-- Go `copyValues(dst, src)` of net/http: `dst[k] = append(dst[k], vs...)` for every
entry of `src`. -/
def copyValues (dst src : Values) : Values :=
  src.foldl (fun d kvs => kvs.2.foldl (fun d2 value => Values.Add d2 kvs.1 value) d) dst

/-! ## params.go -/

/-- An uploaded file part (`*multipart.FileHeader`), known by its file name. -/
abbrev FileHeader := GoString

/-- Go `http.Cookie`, with the fields the framework sets. -/
structure Cookie where
  Name : GoString
  Value : GoString
  Path : GoString
deriving DecidableEq, Repr

/-- Inbound request (`revel.Request` around `http.Request`): method, raw URL query,
resolved content type, body, the outcome of the standard multipart parser on the body
(`none` when it fails) and the cookies sent with the request. -/
structure Request where
  Method : GoString
  RawQuery : GoString
  ContentType : GoString
  Body : GoString
  MultipartForm : Option (Values × GoMap (List FileHeader))
  Cookies : List Cookie

/-- Go `req.URL.Query()`: `ParseQuery` with the error dropped. -/
def Request.URLQuery (req : Request) : Values :=
  (ParseQuery req.RawQuery).1

/-- Go `(r *http.Request) ParseForm()` on a request declared url-encoded: `PostForm` is
the parsed body of a POST, PUT or PATCH request; `Form` receives the `PostForm` values
and then the URL query values.  Returns `Form` and whether an error is returned. -/
def Request.ParseForm (req : Request) : Values × Bool :=
  let post := if req.Method = str "POST" ∨ req.Method = str "PUT" ∨ req.Method = str "PATCH"
    then ParseQuery req.Body else ([], false)
  let query := ParseQuery req.RawQuery
  (copyValues (copyValues [] post.1) query.1, post.2 || query.2)

/-- Go `type Params struct { url.Values; Files ...; tmpFiles ... }` as returned by
`ParseParams` (no temp files yet); `Files = none` is the nil map. -/
structure Params where
  Values : Values
  Files : Option (GoMap (List FileHeader))

/-- Go `ParseParams(req)`. -/
def ParseParams (req : Request) : Params :=
  let values := req.URLQuery
  if req.ContentType = str "application/x-www-form-urlencoded" then
    let form := req.ParseForm
    if form.2 then { Values := values, Files := none }
    else { Values := copyValues values form.1, Files := none }
  else if req.ContentType = str "multipart/form-data" then
    match req.MultipartForm with
    | none => { Values := values, Files := none }
    | some mf => { Values := copyValues values mf.1, Files := some mf.2 }
  else { Values := values, Files := none }

/-! ## reflect (Go standard library), as far as `Field.Value` uses it -/

/-- What `reflect` records about a struct field besides its name: whether the name is
exported (the bit the compiler sets for a name that starts with an upper-case letter),
whether the field is embedded (anonymous), and whether its static type is an interface
type. -/
structure FieldMeta where
  exported : Bool
  embedded : Bool
  iface : Bool
deriving DecidableEq, Repr

/-- Go values that the render arguments (`map[string]interface{}`) can hold, seen the way
`reflect` sees them.

* `nil` is the nil interface value (a map entry, or the content of an interface-typed
  field or pointee); `str` is a string; `other` stands for a value of any further kind
  that is neither pointer nor struct (number, bool, map, slice, array, func, chan);
  `errors` is a `map[string]*ValidationError`.
* `ptr none` is a nil pointer, `ptr (some v)` a pointer to the value `v` of a
  non-interface type, `ifacePtr v` a non-nil pointer to a variable of interface type that
  holds `v`.
* `struct fields promoted`: `fields` are the fields declared in the struct, in order, each
  with its metadata and the value it holds (for a field of interface type: the dynamic
  value, `nil` when the interface is nil); `promoted` lists the names that the search of
  `reflect` through the embedded fields finds (uniquely, at the shallowest depth), each
  with the metadata of the field found and its value, or `none` when reaching it passes
  through a nil embedded pointer. -/
inductive GoValue where
  | nil : GoValue
  | str : GoString → GoValue
  | other : Nat → GoValue
  | errors : GoMap Ptr → GoValue
  | ptr : Option GoValue → GoValue
  | ifacePtr : GoValue → GoValue
  | struct : List (GoString × FieldMeta × GoValue) →
      List (GoString × FieldMeta × Option GoValue) → GoValue

/-- Go `reflect.Value`: the zero Value (`invalid`), or a value with three flags: the two
read-only flags of `reflect` (`stickyRO`, set by an unexported non-embedded field and
inherited by what is reached from it; `embedRO`, set by an unexported embedded field) and
whether the Value has Kind Interface (it was read from a slot of interface type). -/
inductive RValue where
  | invalid : RValue
  | val : GoValue → Bool → Bool → Bool → RValue

/-- Go `reflect.ValueOf(i)`: the zero Value for a nil interface, else the dynamic value. -/
def reflectValueOf : GoValue → RValue
  | GoValue.nil => RValue.invalid
  | v => RValue.val v false false false

/-- Go `v.Kind() == reflect.Ptr`. -/
def RValue.isPtr : RValue → Bool
  | RValue.val (GoValue.ptr _) _ _ false => true
  | RValue.val (GoValue.ifacePtr _) _ _ false => true
  | _ => false

/-- Go `v.IsValid()`. -/
def RValue.IsValid : RValue → Bool
  | RValue.invalid => false
  | RValue.val _ _ _ _ => true

/-- Go `v.Elem()`.  On a pointer: the zero Value for a nil pointer, else the pointee with
the read-only flags of the pointer.  On a Value of Kind Interface: the zero Value for a nil
interface, else the dynamic value, read-only when the interface Value was.  On any other
kind `Elem` panics.  (`Field.Value` calls it on pointers only.) -/
def RValue.Elem : RValue → Option RValue
  | RValue.val GoValue.nil _ _ true => some RValue.invalid
  | RValue.val dyn sticky embed true => some (RValue.val dyn (sticky || embed) false false)
  | RValue.val (GoValue.ptr none) _ _ false => some RValue.invalid
  | RValue.val (GoValue.ptr (some target)) sticky embed false =>
    some (RValue.val target sticky embed false)
  | RValue.val (GoValue.ifacePtr dyn) sticky embed false =>
    some (RValue.val dyn sticky embed true)
  | _ => none

/-- Entry named `name` of a list of named entries (Go field names are distinct). -/
def lookupField {T : Type} : List (GoString × T) → GoString → Option T
  | [], _ => none
  | (n, t) :: rest, name => if n = name then some t else lookupField rest name

/-- Go `v.Field(i)`, on a struct Value whose sticky read-only flag is `sticky`, for the
field with metadata `m` holding `fv`: the sticky flag is inherited and set by an unexported
non-embedded field, the embed flag is set by an unexported embedded field. -/
def RValue.ofField (sticky : Bool) (m : FieldMeta) (fv : GoValue) : RValue :=
  RValue.val fv (sticky || (!m.exported && !m.embedded)) (!m.exported && m.embedded) m.iface

/-- Go `v.FieldByName(name)`: panics (`none`) unless `v` has Kind Struct.  A field
declared in the struct wins; otherwise the field that the search through the embedded
fields finds, with a panic when a nil embedded pointer lies on the way to it; the zero
Value when there is no such field (always so for the empty name). -/
def RValue.FieldByName : RValue → GoString → Option RValue
  | RValue.val (GoValue.struct fields promoted) sticky _ false, name =>
    if name = [] then some RValue.invalid
    else
      match lookupField fields name with
      | some (m, fv) => some (RValue.ofField sticky m fv)
      | none =>
        match lookupField promoted name with
        | none => some RValue.invalid
        | some (_, none) => none
        | some (m, some fv) => some (RValue.ofField sticky m fv)
  | _, _ => none

/-- Go `v.Interface()`: panics (`none`) on the zero Value and on a read-only Value; for
a Value of Kind Interface the result is the dynamic value. -/
def RValue.Interface : RValue → Option GoValue
  | RValue.invalid => none
  | RValue.val v sticky embed _ => if sticky || embed then none else some v

/-! ## field.go -/

/-- Go `type Field struct { Name string; Error *ValidationError; renderArgs map[string]interface{} }`. -/
structure Field where
  Name : GoString
  Error : Option Ptr
  renderArgs : GoMap GoValue

/-- Loop of `Field.Value` over `pieces[1:]`:
`if val.Kind() == reflect.Ptr { val = val.Elem() }; val = val.FieldByName(pieces[i]);
if !val.IsValid() { return "" }`, followed by `return val.Interface()`. -/
def Field.Value.loop : List GoString → RValue → Option GoValue
  | [], val => val.Interface
  | piece :: rest, val =>
    match (if val.isPtr then val.Elem else some val) with
    | none => none
    | some val1 =>
      match val1.FieldByName piece with
      | none => none
      | some val2 =>
        if !val2.IsValid then some (GoValue.str [])
        else Field.Value.loop rest val2

/-- Go `(f *Field) Value()`; `none` is a panic. -/
def Field.Value (f : Field) : Option GoValue :=
  match Split f.Name 46 with
  | [] => none
  | piece0 :: rest =>
    match GoMap.lookup f.renderArgs piece0 with
    | none => some (GoValue.str [])
    | some answer => Field.Value.loop rest (reflectValueOf answer)

/-- Go `strings.Count(s, old)` for a one-byte `old`. -/
def Count (s : GoString) (old : Byte) : Nat :=
  match s with
  | [] => 0
  | c :: rest => if c = old then Count rest old + 1 else Count rest old

/-- Loop of Go `strings.Replace` for a one-byte `old`: the first `n` occurrences of `old`
are replaced by `new`, the rest of the string is copied. -/
def Replace.go (old : Byte) (new : GoString) : GoString → Nat → GoString
  | [], _ => []
  | c :: rest, 0 => c :: rest
  | c :: rest, n + 1 =>
    if c = old then new ++ Replace.go old new rest n
    else c :: Replace.go old new rest (n + 1)

/-- Go `strings.Replace(s, old, new, n)` for a one-byte `old`: `s` itself when
`old == new`, `n == 0` or `old` does not occur; else the first `n` occurrences are
replaced, all of them when `n < 0` or `n` exceeds their number. -/
def Replace (s : GoString) (old : Byte) (new : GoString) (n : Int) : GoString :=
  if [old] = new ∨ n = 0 then s
  else if Count s old = 0 then s
  else if n < 0 ∨ (Count s old : Int) < n then Replace.go old new s (Count s old)
  else Replace.go old new s n.toNat

/-- Go `(f *Field) Id()`: `strings.Replace(f.Name, ".", "_", -1)`. -/
def Field.Id (f : Field) : GoString :=
  Replace f.Name 46 [95] (-1)

/-! ## database/sql (Go standard library), as far as the db plugin uses it -/

/-- Go `error` values returned by a transaction: the sentinel `sql.ErrTxDone`, or any
other error. -/
inductive SqlError where
  | ErrTxDone : SqlError
  | other : GoString → SqlError
deriving DecidableEq, Repr

/-- Go `*sql.Tx`: whether it is already finished, and what the driver will answer to
a commit and to a rollback (`none` is the nil error). -/
structure Tx where
  done : Bool
  driverCommit : Option SqlError
  driverRollback : Option SqlError
deriving DecidableEq, Repr

/-- Go `(tx *Tx) Commit()`: `ErrTxDone` when already finished, else the driver's answer;
the transaction is finished afterwards. -/
def Tx.Commit (tx : Tx) : Option SqlError × Tx :=
  if tx.done then (some SqlError.ErrTxDone, tx)
  else (tx.driverCommit, { tx with done := true })

/-- Go `(tx *Tx) Rollback()`. -/
def Tx.Rollback (tx : Tx) : Option SqlError × Tx :=
  if tx.done then (some SqlError.ErrTxDone, tx)
  else (tx.driverRollback, { tx with done := true })

/-! ## The controller, as far as the plugins use it -/

/-- Go `revel.Controller`: the request, the validation context (set by the validation
plugin before the request), the render arguments, the cookies set on the response, and
the attached transaction (`none` is the nil `*sql.Tx`). -/
structure Controller where
  Request : Request
  Validation : Validation
  RenderArgs : GoMap GoValue
  SetCookies : List Cookie
  Txn : Option Tx

/-- Modelled from the spec: `Controller.SetCookie` (controller.go is not among the
sources) sets the cookie on the response; the cookies set are kept in order. -/
def Controller.SetCookie (c : Controller) (cookie : Cookie) : Controller :=
  { c with SetCookies := c.SetCookies ++ [cookie] }

/-- How a hook ends: normally with the new controller state, or with a panic. -/
inductive Outcome where
  | ok : Controller → Outcome
  | panicNil : Outcome
  | panicErr : SqlError → Outcome

/-- Whether the hook failed. -/
def Outcome.failed : Outcome → Bool
  | Outcome.ok _ => false
  | _ => true

/-! ## modules/db/app/db.go -/

/-- Go `(p DbPlugin) AfterRequest(c)`. -/
def DbPlugin.AfterRequest (c : Controller) : Outcome :=
  match c.Txn with
  | none => Outcome.panicNil
  | some tx =>
    match (tx.Commit).1 with
    | some err =>
      if err ≠ SqlError.ErrTxDone then Outcome.panicErr err
      else Outcome.ok { c with Txn := none }
    | none => Outcome.ok { c with Txn := none }

/-- Go `(p DbPlugin) OnException(c, err)`. -/
def DbPlugin.OnException (c : Controller) : Outcome :=
  match c.Txn with
  | none => Outcome.ok c
  | some tx =>
    match (tx.Rollback).1 with
    | some err =>
      if err ≠ SqlError.ErrTxDone then Outcome.panicErr err
      else Outcome.ok { c with Txn := some (tx.Rollback).2 }
    | none => Outcome.ok { c with Txn := some (tx.Rollback).2 }

/-! ## validation.go: the validation plugin -/

/-- Loop of `AfterRequest`: `if error.Message != "" { errorsValue += "\x00" + error.Key +
":" + error.Message + "\x00" }` for each error in order. -/
def errorsValue.loop (h : Heap) : List Ptr → GoString → Option GoString
  | [], errorsValue => some errorsValue
  | e :: rest, errorsValue =>
    match h.read e with
    | none => none
    | some error =>
      if error.Message ≠ [] then
        errorsValue.loop h rest
          (errorsValue ++ ([(0 : Byte)] ++ error.Key ++ [(58 : Byte)] ++ error.Message ++ [(0 : Byte)]))
      else errorsValue.loop h rest errorsValue

/-- Go `(p ValidationPlugin) AfterRequest(c)`; `cookiePrefix` is the global `CookiePrefix`. -/
def ValidationPlugin.AfterRequest (cookiePrefix : GoString) (h : Heap) (c : Controller) :
    Option Controller :=
  match c.Validation.ErrorMap h with
  | none => none
  | some m =>
    let c1 := { c with RenderArgs := GoMap.set c.RenderArgs (str "errors") (GoValue.errors m) }
    match (if c1.Validation.keep then errorsValue.loop h c1.Validation.Errors [] else some []) with
    | none => none
    | some errorsValue =>
      some (c1.SetCookie
        { Name := cookiePrefix ++ str "_ERRORS", Value := QueryEscape errorsValue, Path := str "/" })

/-- Go `(r *http.Request) Cookie(name)`: the first cookie of that name, `none` for
`ErrNoCookie`. -/
def Request.Cookie (req : Request) (name : GoString) : Option Cookie :=
  req.Cookies.find? (fun ck => decide (ck.Name = name))

/-- Reading position of the cookie record scanner: before a record, inside a key,
inside a message. -/
inductive ScanState where
  | idle : ScanState
  | key : GoString → ScanState
  | message : GoString → GoString → ScanState

/-- Modelled from the spec: the records of a cookie value that is a concatenation of
`\x00<key>:<message>\x00`; a record starts at a NUL byte, its key runs to the first `:`
and its message to the next NUL byte; bytes outside records are skipped. -/
def scanRecords : ScanState → GoString → List (GoString × GoString)
  | _, [] => []
  | ScanState.idle, b :: rest =>
    if b.val = 0 then scanRecords (ScanState.key []) rest else scanRecords ScanState.idle rest
  | ScanState.key k, b :: rest =>
    if b.val = 58 then scanRecords (ScanState.message k []) rest
    else scanRecords (ScanState.key (k ++ [b])) rest
  | ScanState.message k m, b :: rest =>
    if b.val = 0 then (k, m) :: scanRecords ScanState.idle rest
    else scanRecords (ScanState.message k (m ++ [b])) rest

/-- Modelled from the spec: `ParseKeyValueCookie` (not among the sources) URL-unescapes the
cookie value (an undecodable value counts as empty) and hands each NUL-delimited
`key:message` record, in order, to the callback; the model returns the records. -/
def ParseKeyValueCookie (val : GoString) : List (GoString × GoString) :=
  scanRecords ScanState.idle ((QueryUnescape val).getD [])

/-- The callback of `restoreValidationErrors`, once per record:
`errors = append(errors, &ValidationError{Key: key, Message: val})`. -/
def restoreValidationErrors.collect :
    List (GoString × GoString) → List Ptr → Heap → List Ptr × Heap
  | [], errors, h => (errors, h)
  | (key, val) :: rest, errors, h =>
    let a := h.alloc { Message := val, Key := key }
    restoreValidationErrors.collect rest (errors ++ [a.1]) a.2

/-- Go `restoreValidationErrors(req)`. -/
def restoreValidationErrors (cookiePrefix : GoString) (h : Heap) (req : Request) :
    List Ptr × Heap :=
  match req.Cookie (cookiePrefix ++ str "_ERRORS") with
  | none => ([], h)
  | some cookie => restoreValidationErrors.collect (ParseKeyValueCookie cookie.Value) [] h

/-- Go `(p ValidationPlugin) BeforeRequest(c)`. -/
def ValidationPlugin.BeforeRequest (cookiePrefix : GoString) (h : Heap) (c : Controller) :
    Controller × Heap :=
  let r := restoreValidationErrors cookiePrefix h c.Request
  ({ c with Validation := { Errors := r.1, keep := false } }, r.2)

/-! ## The dotted-path resolution the specification describes -/

/-- Member `name` of a struct: a field declared in the struct, else a field promoted from
an embedded struct that can be reached (no nil embedded pointer on the way). -/
def structMember (fields : List (GoString × FieldMeta × GoValue))
    (promoted : List (GoString × FieldMeta × Option GoValue)) (name : GoString) :
    Option (FieldMeta × GoValue) :=
  if name = [] then none
  else
    match lookupField fields name with
    | some member => some member
    | none =>
      match lookupField promoted name with
      | some (m, some fv) => some (m, fv)
      | _ => none

/-- Spec wording ("traverses into a named member of that value, dereferencing one level
of indirection if present"): the member `name` of `v`, where `v` is a struct or a pointer
to a struct. -/
def specMember (v : GoValue) (name : GoString) : Option (FieldMeta × GoValue) :=
  match v with
  | GoValue.struct fields promoted => structMember fields promoted name
  | GoValue.ptr (some (GoValue.struct fields promoted)) => structMember fields promoted name
  | _ => none

/-- Spec wording, for exported members: the value reached from `v` by following the
segments one after the other, and whether it is held in a slot of interface type.  Each
segment must name an exported member of the value reached so far, and a value held in a
slot of interface type is not traversed further; otherwise `none`. -/
def specResolve : GoValue → Bool → List GoString → Option (GoValue × Bool)
  | v, iface, [] => some (v, iface)
  | v, iface, seg :: rest =>
    if iface then none
    else
      match specMember v seg with
      | none => none
      | some (m, member) =>
        if m.exported then specResolve member m.iface rest else none

/-! ## Lemmas on maps and the heap -/

theorem GoMap.lookup_set {T : Type} (m : GoMap T) (k k2 : GoString) (t : T) :
    GoMap.lookup (GoMap.set m k t) k2 = if k = k2 then some t else GoMap.lookup m k2 := by
  induction m with
  | nil => simp [GoMap.set, GoMap.lookup]
  | cons entry rest ih =>
    obtain ⟨k1, t1⟩ := entry
    by_cases h1 : k1 = k
    · subst h1
      by_cases h2 : k1 = k2 <;> simp [GoMap.set, GoMap.lookup, h2]
    · by_cases h2 : k1 = k2
      · subst h2
        have h3 : ¬ k = k1 := fun e => h1 e.symm
        simp [GoMap.set, GoMap.lookup, h1, h3]
      · simp [GoMap.set, GoMap.lookup, h1, h2, ih]

theorem Heap.read_alloc_new (h : Heap) (e : ValidationError) :
    (h.alloc e).2.read h.cells.length = some e := by
  simp [Heap.alloc, Heap.read]

theorem Heap.read_alloc_old (h : Heap) (e e0 : ValidationError) (q : Ptr)
    (hq : h.read q = some e0) : (h.alloc e).2.read q = some e0 := by
  simp only [Heap.read, List.get?_eq_getElem?] at hq
  have hlt : q < h.cells.length := by
    by_contra hge
    rw [List.getElem?_eq_none (Nat.le_of_not_lt hge)] at hq
    exact Option.noConfusion hq
  simp [Heap.alloc, Heap.read, List.getElem?_append_left hlt, hq]

theorem Heap.read_extend (h : Heap) (more : List ValidationError) (q : Ptr)
    (e0 : ValidationError) (hq : h.read q = some e0) :
    (⟨h.cells ++ more⟩ : Heap).read q = some e0 := by
  simp only [Heap.read, List.get?_eq_getElem?] at hq
  have hlt : q < h.cells.length := by
    by_contra hge
    rw [List.getElem?_eq_none (Nat.le_of_not_lt hge)] at hq
    exact Option.noConfusion hq
  simp [Heap.read, List.getElem?_append_left hlt, hq]

theorem Heap.read_fresh (h : Heap) : h.read h.cells.length = none := by
  simp [Heap.read]

/-! ## Single checks and `Check` -/

theorem lineKey_absent (dk : List (Int × GoString)) (line : Int)
    (hno : ∀ k, (line, k) ∉ dk) : lineKey dk line = [] := by
  induction dk with
  | nil => rfl
  | cons entry rest ih =>
    obtain ⟨l, k⟩ := entry
    have hne : ¬ l = line := by
      intro e
      exact hno k (by simp [e])
    simp only [lineKey, hne, if_false]
    exact ih (fun k2 hk => hno k2 (List.mem_cons_of_mem _ hk))

theorem apply_satisfied {Obj : Type} (keys : ValidationKeys) (caller : CallSite)
    (h : Heap) (v : Validation) (chk : Validator Obj) (obj : Obj)
    (hs : chk.IsSatisfied obj = true) :
    Validation.apply keys caller h v chk obj = ({ Error := none, Ok := true }, h, v) := by
  simp [Validation.apply, hs]

theorem apply_failed {Obj : Type} (keys : ValidationKeys) (caller : CallSite)
    (h : Heap) (v : Validation) (chk : Validator Obj) (obj : Obj)
    (hs : chk.IsSatisfied obj = false) :
    Validation.apply keys caller h v chk obj =
      ({ Error := some h.cells.length, Ok := false },
       (h.alloc { Message := chk.DefaultMessage, Key := defaultKey keys caller }).2,
       { Errors := v.Errors ++ [h.cells.length], keep := v.keep }) := by
  simp [Validation.apply, hs, Heap.alloc]

theorem Check_loop_satisfied {Obj : Type} (keys : ValidationKeys) (caller : CallSite)
    (obj : Obj) (pre rest : List (Validator Obj)) (r : Option ValidationResult)
    (h : Heap) (v : Validation) (hpre : ∀ x ∈ pre, x.IsSatisfied obj = true) :
    Validation.Check.loop keys caller obj (pre ++ rest) r h v =
      Validation.Check.loop keys caller obj rest
        (if pre.isEmpty then r else some { Error := none, Ok := true }) h v := by
  induction pre generalizing r with
  | nil => simp
  | cons c cs ih =>
    have hc : c.IsSatisfied obj = true := hpre c (List.mem_cons_self _ _)
    have hcs : ∀ x ∈ cs, x.IsSatisfied obj = true :=
      fun x hx => hpre x (List.mem_cons_of_mem _ hx)
    simp only [List.cons_append, Validation.Check.loop, apply_satisfied keys caller h v c obj hc]
    simp only [Bool.not_true, Bool.false_eq_true, if_false]
    have happ : cs.append rest = cs ++ rest := rfl
    rw [happ, ih _ hcs]
    cases cs <;> simp

theorem first_unsatisfied_split {Obj : Type} (obj : Obj) (checks : List (Validator Obj))
    (hsome : ∃ x ∈ checks, x.IsSatisfied obj = false) :
    ∃ pre c post, checks = pre ++ c :: post ∧ (∀ x ∈ pre, x.IsSatisfied obj = true) ∧
      c.IsSatisfied obj = false := by
  induction checks with
  | nil =>
    obtain ⟨x, hx, _⟩ := hsome
    exact absurd hx (List.not_mem_nil x)
  | cons a rest ih =>
    cases ha : a.IsSatisfied obj with
    | false => exact ⟨[], a, rest, rfl, fun x hx => absurd hx (List.not_mem_nil x), ha⟩
    | true =>
      obtain ⟨x, hx, hxs⟩ := hsome
      have hxrest : x ∈ rest := by
        rcases List.mem_cons.mp hx with hxa | hxr
        · rw [hxa, ha] at hxs
          exact Bool.noConfusion hxs
        · exact hxr
      obtain ⟨pre, c, post, hsplit, hpre, hc⟩ := ih ⟨x, hxrest, hxs⟩
      refine ⟨a :: pre, c, post, by rw [hsplit, List.cons_append], ?_, hc⟩
      intro y hy
      rcases List.mem_cons.mp hy with hya | hyp
      · rw [hya]
        exact ha
      · exact hpre y hyp

/-- C9: a single check through `apply` accumulates exactly on failure.  If the validator
is satisfied the result is `Ok = true` with no Error and neither the heap nor the context
changes.  If it is not satisfied, the result is `Ok = false` and its Error is a freshly
allocated error `p`; `Errors` is the old sequence followed by `p` and `keep` is unchanged;
`p` holds the validator's default message; every error that existed before still reads
the same; and the Key of `p` is empty when the call site is unknown, its function has no
entry in `DefaultValidationKeys`, or that entry has no key for the line. -/
theorem apply_accumulates_exactly_on_failure {Obj : Type} (keys : ValidationKeys)
    (caller : CallSite) (h : Heap) (v : Validation) (chk : Validator Obj) (obj : Obj) :
    (chk.IsSatisfied obj = true →
      Validation.apply keys caller h v chk obj = ({ Error := none, Ok := true }, h, v)) ∧
    (chk.IsSatisfied obj = false →
      ∃ (p : Ptr) (h2 : Heap) (key : GoString),
        Validation.apply keys caller h v chk obj =
          ({ Error := some p, Ok := false }, h2,
           { Errors := v.Errors ++ [p], keep := v.keep }) ∧
        h.read p = none ∧
        h2.read p = some { Message := chk.DefaultMessage, Key := key } ∧
        (∀ q e, h.read q = some e → h2.read q = some e) ∧
        (caller = none → key = []) ∧
        (∀ fn line, caller = some (fn, line) → GoMap.lookup keys fn = none → key = []) ∧
        (∀ fn line dk, caller = some (fn, line) → GoMap.lookup keys fn = some dk →
          (∀ k, (line, k) ∉ dk) → key = [])) := by
  refine ⟨apply_satisfied keys caller h v chk obj, fun hs => ?_⟩
  refine ⟨h.cells.length,
    (h.alloc { Message := chk.DefaultMessage, Key := defaultKey keys caller }).2,
    defaultKey keys caller, apply_failed keys caller h v chk obj hs, Heap.read_fresh h,
    Heap.read_alloc_new h _, fun q e hq => Heap.read_alloc_old h _ e q hq, ?_, ?_, ?_⟩
  · intro hc
    simp [defaultKey, hc]
  · intro fn line hc hk
    simp [defaultKey, hc, hk]
  · intro fn line dk hc hk hno
    simp only [defaultKey, hc, hk]
    exact lineKey_absent dk line hno

/-- C2: `Check` returns the first failing result or the last result.  With no validators
the result is nil and nothing changes.  If the validators `pre` are all satisfied and `c`
is not, then whatever follows `c`, the outcome is that of applying `c` alone to the
initial state: the result is `Ok = false` with a fresh Error `p` holding the default
message of `c`, and `Errors` is the old sequence followed by `p` only.  If all validators
of a non-empty list are satisfied the result is the (successful, error-free) result of the
last one, and the heap and the context are unchanged.  Every list with an unsatisfied
validator splits in this way at its first unsatisfied validator. -/
theorem Check_first_failing_or_last {Obj : Type} (keys : ValidationKeys)
    (caller : CallSite) (h : Heap) (v : Validation) (obj : Obj) :
    Validation.Check keys caller h v obj [] = (none, h, v) ∧
    (∀ (pre post : List (Validator Obj)) (c : Validator Obj),
      (∀ x ∈ pre, x.IsSatisfied obj = true) → c.IsSatisfied obj = false →
        Validation.Check keys caller h v obj (pre ++ c :: post) =
          (some (Validation.apply keys caller h v c obj).1,
           (Validation.apply keys caller h v c obj).2) ∧
        Validation.Check keys caller h v obj (pre ++ c :: post) =
          Validation.Check keys caller h v obj (pre ++ [c]) ∧
        ∃ (p : Ptr) (h2 : Heap),
          Validation.Check keys caller h v obj (pre ++ c :: post) =
            (some { Error := some p, Ok := false }, h2,
             { Errors := v.Errors ++ [p], keep := v.keep }) ∧
          h.read p = none ∧
          (h2.read p).map ValidationError.Message = some c.DefaultMessage ∧
          (∀ q e, h.read q = some e → h2.read q = some e)) ∧
    (∀ (checks : List (Validator Obj)) (hne : checks ≠ []),
      (∀ x ∈ checks, x.IsSatisfied obj = true) →
        Validation.Check keys caller h v obj checks =
          (some (Validation.apply keys caller h v (checks.getLast hne) obj).1, h, v) ∧
        Validation.Check keys caller h v obj checks =
          (some { Error := none, Ok := true }, h, v)) ∧
    (∀ (checks : List (Validator Obj)), (∃ x ∈ checks, x.IsSatisfied obj = false) →
      ∃ pre c post, checks = pre ++ c :: post ∧ (∀ x ∈ pre, x.IsSatisfied obj = true) ∧
        c.IsSatisfied obj = false ∧
        Validation.Check keys caller h v obj checks =
          (some (Validation.apply keys caller h v c obj).1,
           (Validation.apply keys caller h v c obj).2)) := by
  have key : ∀ (pre post : List (Validator Obj)) (c : Validator Obj),
      (∀ x ∈ pre, x.IsSatisfied obj = true) → c.IsSatisfied obj = false →
      Validation.Check keys caller h v obj (pre ++ c :: post) =
        (some { Error := some h.cells.length, Ok := false },
         (h.alloc { Message := c.DefaultMessage, Key := defaultKey keys caller }).2,
         { Errors := v.Errors ++ [h.cells.length], keep := v.keep }) := by
    intro pre post c hpre hc
    unfold Validation.Check
    rw [Check_loop_satisfied keys caller obj pre (c :: post) none h v hpre]
    simp [Validation.Check.loop, apply_failed keys caller h v c obj hc]
  refine ⟨rfl, ?_, ?_, ?_⟩
  · intro pre post c hpre hc
    refine ⟨?_, ?_, ?_⟩
    · rw [key pre post c hpre hc, apply_failed keys caller h v c obj hc]
    · rw [key pre post c hpre hc, key pre [] c hpre hc]
    · refine ⟨h.cells.length, _, key pre post c hpre hc, Heap.read_fresh h, ?_,
        fun q e hq => Heap.read_alloc_old h _ e q hq⟩
      rw [Heap.read_alloc_new]
      rfl
  · intro checks hne hall
    have hloop := Check_loop_satisfied keys caller obj checks [] none h v
      (by simpa using hall)
    have hlast : (checks.getLast hne).IsSatisfied obj = true :=
      hall _ (List.getLast_mem hne)
    have heq : Validation.Check keys caller h v obj checks =
        (some { Error := none, Ok := true }, h, v) := by
      unfold Validation.Check
      have := hloop
      simp only [List.append_nil] at this
      rw [this]
      cases checks with
      | nil => exact absurd rfl hne
      | cons c cs => simp [Validation.Check.loop]
    exact ⟨by rw [heq, apply_satisfied keys caller h v _ obj hlast], heq⟩
  · intro checks hsome
    obtain ⟨pre, c, post, hsplit, hpre, hc⟩ := first_unsatisfied_split obj checks hsome
    refine ⟨pre, c, post, hsplit, hpre, hc, ?_⟩
    rw [hsplit, key pre post c hpre hc, apply_failed keys caller h v c obj hc]

/-! ## `ErrorMap` and `Error` -/

theorem ErrorMap_loop_spec (h : Heap) (es : List Ptr) (m : GoMap Ptr)
    (hwf : ∀ p ∈ es, (h.read p).isSome = true) :
    ∃ m2, Validation.ErrorMap.loop h es m = some m2 ∧
      ∀ k, GoMap.lookup m2 k =
        match GoMap.lookup m k with
        | some t => some t
        | none => es.find? (fun p => decide ((h.read p).map ValidationError.Key = some k)) := by
  induction es generalizing m with
  | nil =>
    refine ⟨m, rfl, fun k => ?_⟩
    cases GoMap.lookup m k <;> simp
  | cons e rest ih =>
    have hrest : ∀ p ∈ rest, (h.read p).isSome = true :=
      fun p hp => hwf p (List.mem_cons_of_mem _ hp)
    have he : (h.read e).isSome = true := hwf e (List.mem_cons_self _ _)
    obtain ⟨err, herr⟩ := Option.isSome_iff_exists.mp he
    cases hm : GoMap.lookup m err.Key with
    | some t =>
      obtain ⟨m2, hloop, hspec⟩ := ih m hrest
      refine ⟨m2, by simp [Validation.ErrorMap.loop, herr, hm, hloop], fun k => ?_⟩
      rw [hspec k]
      cases hk : GoMap.lookup m k with
      | some t2 => rfl
      | none =>
        have hne : ¬ err.Key = k := by
          intro e2
          rw [e2] at hm
          rw [hm] at hk
          exact Option.noConfusion hk
        simp [List.find?, herr, hne]
    | none =>
      obtain ⟨m2, hloop, hspec⟩ := ih (GoMap.set m err.Key e) hrest
      refine ⟨m2, by simp [Validation.ErrorMap.loop, herr, hm, hloop], fun k => ?_⟩
      rw [hspec k, GoMap.lookup_set]
      by_cases hek : err.Key = k
      · subst hek
        simp [hm, List.find?, herr]
      · simp only [hek, if_false]
        cases hk : GoMap.lookup m k with
        | some t2 => rfl
        | none => simp [List.find?, herr, hek]

theorem ErrorMap_total (h : Heap) (v : Validation)
    (hwf : ∀ p ∈ v.Errors, (h.read p).isSome = true) : ∃ m, v.ErrorMap h = some m := by
  obtain ⟨m, hloop, _⟩ := ErrorMap_loop_spec h v.Errors [] hwf
  exact ⟨m, hloop⟩

/-- C3: `ErrorMap` is first-wins per key.  When every pointer in `Errors` refers to an
error, `ErrorMap()` returns a map `m` such that `m` contains the key `k` exactly when some
error in `Errors` has Key `k`, and `m[k]` is `p` exactly when `p` is the earliest entry of
`Errors` whose Key is `k` (no entry before it has Key `k`). -/
theorem ErrorMap_first_wins (h : Heap) (v : Validation)
    (hwf : ∀ p ∈ v.Errors, (h.read p).isSome = true) :
    ∃ m, v.ErrorMap h = some m ∧
      (∀ k, (GoMap.lookup m k).isSome = true ↔
        ∃ p ∈ v.Errors, (h.read p).map ValidationError.Key = some k) ∧
      (∀ k p, GoMap.lookup m k = some p ↔
        ∃ pre post, v.Errors = pre ++ p :: post ∧
          (h.read p).map ValidationError.Key = some k ∧
          ∀ q ∈ pre, (h.read q).map ValidationError.Key ≠ some k) := by
  obtain ⟨m, hloop, hspec⟩ := ErrorMap_loop_spec h v.Errors [] hwf
  refine ⟨m, hloop, fun k => ?_, fun k p => ?_⟩
  · rw [hspec k]
    simp [GoMap.lookup, List.find?_isSome]
  · rw [hspec k]
    simp only [GoMap.lookup, List.find?_eq_some, decide_eq_true_eq]
    constructor
    · rintro ⟨hp, pre, post, hsplit, hpre⟩
      exact ⟨pre, post, hsplit, hp, fun q hq => by simpa using hpre q hq⟩
    · rintro ⟨pre, post, hsplit, hp, hpre⟩
      exact ⟨hp, pre, post, hsplit, fun q hq => by simpa using hpre q hq⟩

/-- C4, the code as it is: `Validation.Error` allocates a new error and returns a failing
result that refers to it, but the validation context comes back unchanged: nothing is
appended to `Errors`.  The message stored is `fmt.Sprintf(message, args)` applied to the
one-element argument list holding the `args` slice, whatever `args` is. -/
theorem Validation_Error_appends_nothing {Arg : Type}
    (sprintf : GoString → List (List Arg) → GoString) (h : Heap) (v : Validation)
    (message : GoString) (args : List Arg) :
    Validation.Error sprintf h v message args =
        some ({ Error := some h.cells.length, Ok := false },
              ⟨h.cells ++ [{ Message := sprintf message [args], Key := [] }]⟩, v) ∧
      (Validation.Error sprintf h ⟨[], false⟩ message args).map
        (fun r => r.2.2.HasErrors) = some false := by
  have hread : ∀ (h : Heap) (e : ValidationError),
      (⟨h.cells ++ [e]⟩ : Heap).read h.cells.length = some e := by
    intro h e
    simp [Heap.read]
  have hval : ∀ v : Validation, Validation.Error sprintf h v message args =
      some ({ Error := some h.cells.length, Ok := false },
            ⟨h.cells ++ [{ Message := sprintf message [args], Key := [] }]⟩, v) := by
    intro v
    simp [Validation.Error, Heap.alloc, ValidationResult.Message, hread, Heap.write]
  refine ⟨hval v, ?_⟩
  rw [hval]
  rfl

/-- Witness of C9: the check "minimum 5" on the value 3 in a fresh context, called from
a call site without a default key, appends exactly one error with an empty Key. -/
theorem apply_accumulates_exactly_on_failure_witness :
    ({ IsSatisfied := fun n => decide (5 ≤ n), DefaultMessage := str "Minimum is 5" } : Validator Nat).IsSatisfied 3 = false ∧
    ∃ (p : Ptr) (h2 : Heap) (key : GoString),
      Validation.apply [] none ⟨[]⟩ ⟨[], true⟩ ({ IsSatisfied := fun n => decide (5 ≤ n), DefaultMessage := str "Minimum is 5" } : Validator Nat) 3 =
        ({ Error := some p, Ok := false }, h2, { Errors := [] ++ [p], keep := true }) ∧
      (⟨[]⟩ : Heap).read p = none ∧
      h2.read p = some { Message := str "Minimum is 5", Key := key } ∧
      (∀ q e, (⟨[]⟩ : Heap).read q = some e → h2.read q = some e) ∧
      ((none : CallSite) = none → key = []) ∧
      (∀ fn line, (none : CallSite) = some (fn, line) →
        GoMap.lookup ([] : ValidationKeys) fn = none → key = []) ∧
      (∀ fn line dk, (none : CallSite) = some (fn, line) →
        GoMap.lookup ([] : ValidationKeys) fn = some dk → (∀ k, (line, k) ∉ dk) → key = []) :=
  ⟨by decide,
   (apply_accumulates_exactly_on_failure [] none ⟨[]⟩ ⟨[], true⟩ ({ IsSatisfied := fun n => decide (5 ≤ n), DefaultMessage := str "Minimum is 5" } : Validator Nat) 3).2 (by decide)⟩

/-- Witness of C2: of the checks "minimum 1", "minimum 5", "minimum 9" on the value 3,
the first is satisfied and the second fails; the third is never reached. -/
theorem Check_first_failing_or_last_witness :
    (∀ x ∈ [({ IsSatisfied := fun n => decide (1 ≤ n), DefaultMessage := str "Minimum is 1" } : Validator Nat)], x.IsSatisfied 3 = true) ∧ ({ IsSatisfied := fun n => decide (5 ≤ n), DefaultMessage := str "Minimum is 5" } : Validator Nat).IsSatisfied 3 = false ∧
    Validation.Check [] none ⟨[]⟩ ⟨[], false⟩ 3 ([({ IsSatisfied := fun n => decide (1 ≤ n), DefaultMessage := str "Minimum is 1" } : Validator Nat)] ++ ({ IsSatisfied := fun n => decide (5 ≤ n), DefaultMessage := str "Minimum is 5" } : Validator Nat) :: [({ IsSatisfied := fun n => decide (9 ≤ n), DefaultMessage := str "Minimum is 9" } : Validator Nat)]) =
      Validation.Check [] none ⟨[]⟩ ⟨[], false⟩ 3 ([({ IsSatisfied := fun n => decide (1 ≤ n), DefaultMessage := str "Minimum is 1" } : Validator Nat)] ++ [({ IsSatisfied := fun n => decide (5 ≤ n), DefaultMessage := str "Minimum is 5" } : Validator Nat)]) :=
  ⟨by simp, by decide,
   ((Check_first_failing_or_last [] none ⟨[]⟩ ⟨[], false⟩ 3).2.1 [({ IsSatisfied := fun n => decide (1 ≤ n), DefaultMessage := str "Minimum is 1" } : Validator Nat)] [({ IsSatisfied := fun n => decide (9 ≤ n), DefaultMessage := str "Minimum is 9" } : Validator Nat)] ({ IsSatisfied := fun n => decide (5 ≤ n), DefaultMessage := str "Minimum is 5" } : Validator Nat)
      (by simp) (by decide)).2.1⟩

/-- Witness of C3: two errors E1, E2 with the same Key "k", appended in that order;
`ErrorMap()["k"]` is E1. -/
theorem ErrorMap_first_wins_witness :
    (∀ p ∈ [0, 1], ((⟨[⟨str "m1", str "k"⟩, ⟨str "m2", str "k"⟩]⟩ : Heap).read p).isSome = true) ∧
    ∃ m, Validation.ErrorMap ⟨[⟨str "m1", str "k"⟩, ⟨str "m2", str "k"⟩]⟩ ⟨[0, 1], false⟩ = some m ∧
      (∀ k, (GoMap.lookup m k).isSome = true ↔
        ∃ p ∈ [0, 1], ((⟨[⟨str "m1", str "k"⟩, ⟨str "m2", str "k"⟩]⟩ : Heap).read p).map
          ValidationError.Key = some k) ∧
      (∀ k p, GoMap.lookup m k = some p ↔
        ∃ pre post, [0, 1] = pre ++ p :: post ∧
          ((⟨[⟨str "m1", str "k"⟩, ⟨str "m2", str "k"⟩]⟩ : Heap).read p).map
            ValidationError.Key = some k ∧
          ∀ q ∈ pre, ((⟨[⟨str "m1", str "k"⟩, ⟨str "m2", str "k"⟩]⟩ : Heap).read q).map
            ValidationError.Key ≠ some k) :=
  ⟨by decide,
   ErrorMap_first_wins ⟨[⟨str "m1", str "k"⟩, ⟨str "m2", str "k"⟩]⟩ ⟨[0, 1], false⟩ (by decide)⟩

/-! ## `ParseParams` -/

theorem Values.slice_Add (v : Values) (k k2 x : GoString) :
    Values.slice (Values.Add v k x) k2 = if k = k2 then Values.slice v k ++ [x] else Values.slice v k2 := by
  simp only [Values.slice, Values.Add, GoMap.lookup_set]
  by_cases hk : k = k2 <;> simp [hk]

theorem Values.slice_addAll (vs : List GoString) (d : Values) (k k2 : GoString) :
    Values.slice (vs.foldl (fun d2 value => Values.Add d2 k value) d) k2 =
      if k = k2 then Values.slice d k ++ vs else Values.slice d k2 := by
  induction vs generalizing d with
  | nil => by_cases hk : k = k2 <;> simp [hk]
  | cons x rest ih =>
    simp only [List.foldl_cons, ih, Values.slice_Add]
    by_cases hk : k = k2 <;> simp [hk]

theorem GoMap.lookup_absent {T : Type} (m : GoMap T) (k : GoString)
    (hk : k ∉ m.map Prod.fst) : GoMap.lookup m k = none := by
  induction m with
  | nil => rfl
  | cons entry rest ih =>
    obtain ⟨k1, t1⟩ := entry
    simp only [List.map_cons, List.mem_cons, not_or] at hk
    have hne : ¬ k1 = k := fun e => hk.1 e.symm
    simp only [GoMap.lookup, hne, if_false]
    exact ih hk.2

theorem GoMap.keys_set {T : Type} (m : GoMap T) (k : GoString) (t : T) :
    (GoMap.set m k t).map Prod.fst =
      if k ∈ m.map Prod.fst then m.map Prod.fst else m.map Prod.fst ++ [k] := by
  induction m with
  | nil => simp [GoMap.set]
  | cons entry rest ih =>
    obtain ⟨k1, t1⟩ := entry
    by_cases h1 : k1 = k
    · subst h1
      simp [GoMap.set]
    · have h2 : ¬ k = k1 := fun e => h1 e.symm
      by_cases hmem : k ∈ rest.map Prod.fst
      · simp only [GoMap.set, h1, if_false, List.map_cons, ih, hmem, if_true, List.mem_cons,
          or_true]
      · simp only [GoMap.set, h1, if_false, List.map_cons, ih, hmem, List.mem_cons, h2,
          or_self, List.cons_append]

theorem GoMap.nodup_set {T : Type} (m : GoMap T) (k : GoString) (t : T)
    (hm : (m.map Prod.fst).Nodup) : ((GoMap.set m k t).map Prod.fst).Nodup := by
  rw [GoMap.keys_set]
  by_cases hmem : k ∈ m.map Prod.fst
  · simpa [hmem] using hm
  · simp only [hmem, if_false]
    exact List.Nodup.append hm (List.nodup_singleton k) (by simpa using hmem)

theorem ParseQuery_nodup (query : GoString) : ((ParseQuery query).1.map Prod.fst).Nodup := by
  have hfold : ∀ (pieces : List GoString) (acc : Values × Bool),
      (acc.1.map Prod.fst).Nodup →
      ((pieces.foldl parseQuery.piece acc).1.map Prod.fst).Nodup := by
    intro pieces
    induction pieces with
    | nil => intro acc hacc; exact hacc
    | cons piece rest ih =>
      intro acc hacc
      rw [List.foldl_cons]
      apply ih
      unfold parseQuery.piece
      split
      · exact hacc
      · split
        · exact hacc
        · dsimp only
          split
          · exact hacc
          · split
            · exact hacc
            · exact GoMap.nodup_set _ _ _ hacc
  exact hfold _ _ List.nodup_nil

theorem copyValues_nodup (src dst : Values) (hdst : (dst.map Prod.fst).Nodup) :
    ((copyValues dst src).map Prod.fst).Nodup := by
  have hadd : ∀ (vs : List GoString) (k : GoString) (d : Values), (d.map Prod.fst).Nodup →
      ((vs.foldl (fun d2 value => Values.Add d2 k value) d).map Prod.fst).Nodup := by
    intro vs k
    induction vs with
    | nil => intro d hd; exact hd
    | cons x rest ih =>
      intro d hd
      exact ih _ (GoMap.nodup_set _ _ _ hd)
  induction src generalizing dst with
  | nil => exact hdst
  | cons entry rest ih =>
    have hstep : copyValues dst (entry :: rest) =
        copyValues (entry.2.foldl (fun d2 value => Values.Add d2 entry.1 value) dst) rest := by
      simp [copyValues]
    rw [hstep]
    exact ih _ (hadd _ _ _ hdst)

theorem Values.slice_copyValues (src dst : Values) (k : GoString)
    (hsrc : (src.map Prod.fst).Nodup) :
    Values.slice (copyValues dst src) k = Values.slice dst k ++ Values.slice src k := by
  induction src generalizing dst with
  | nil => simp [copyValues, Values.slice, GoMap.lookup]
  | cons entry rest ih =>
    obtain ⟨k1, vs1⟩ := entry
    simp only [List.map_cons, List.nodup_cons] at hsrc
    have hstep : copyValues dst ((k1, vs1) :: rest) =
        copyValues (vs1.foldl (fun d2 value => Values.Add d2 k1 value) dst) rest := by
      simp [copyValues]
    rw [hstep, ih _ hsrc.2, Values.slice_addAll]
    by_cases hk : k1 = k
    · subst hk
      simp [Values.slice, GoMap.lookup, GoMap.lookup_absent rest k1 hsrc.1]
    · simp [hk, Values.slice, GoMap.lookup]

/-- C1, the code as it is.  For every request declared url-encoded whose query and body
parse without error, `ParseParams` yields for each key the query values, then the values
of `req.Form`: the body values of a POST, PUT or PATCH request followed by the query values
once more.  For the POST request with URL query `a=1` and body `a=2&b=3` this gives
`["1","2","1"]` for "a" (not `["1","2"]`) and `["3"]` for "b"; the same query and body
fields sent as `multipart/form-data` yield `["1","2"]` for "a". -/
theorem ParseParams_urlencoded_repeats_query :
    (∀ (req : Request) (k : GoString),
      req.ContentType = str "application/x-www-form-urlencoded" → (req.ParseForm).2 = false →
      Values.slice (ParseParams req).Values k =
        Values.slice req.URLQuery k ++
          (Values.slice (if req.Method = str "POST" ∨ req.Method = str "PUT" ∨
              req.Method = str "PATCH" then (ParseQuery req.Body).1 else []) k ++
            Values.slice req.URLQuery k)) ∧
    Values.slice (ParseParams (Request.mk (str "POST") (str "a=1")
        (str "application/x-www-form-urlencoded") (str "a=2&b=3") none [])).Values (str "a")
      = [str "1", str "2", str "1"] ∧
    Values.slice (ParseParams (Request.mk (str "POST") (str "a=1")
        (str "application/x-www-form-urlencoded") (str "a=2&b=3") none [])).Values (str "b")
      = [str "3"] ∧
    Values.slice (ParseParams (Request.mk (str "POST") (str "a=1")
        (str "multipart/form-data") []
        (some ([(str "a", [str "2"]), (str "b", [str "3"])], [])) [])).Values (str "a")
      = [str "1", str "2"] := by
  refine ⟨?_, by decide, by decide, by decide⟩
  intro req k hct herr
  have hpost : ((if req.Method = str "POST" ∨ req.Method = str "PUT" ∨
      req.Method = str "PATCH" then ParseQuery req.Body else ([], false)).1.map Prod.fst).Nodup := by
    split
    · exact ParseQuery_nodup _
    · exact List.nodup_nil
  have hform : ∀ k2, Values.slice (req.ParseForm).1 k2 =
      Values.slice (if req.Method = str "POST" ∨ req.Method = str "PUT" ∨
          req.Method = str "PATCH" then (ParseQuery req.Body).1 else []) k2 ++
        Values.slice req.URLQuery k2 := by
    intro k2
    simp only [Request.ParseForm, Request.URLQuery]
    rw [Values.slice_copyValues _ _ _ (ParseQuery_nodup _), Values.slice_copyValues _ _ _ hpost]
    split <;> simp [Values.slice, GoMap.lookup]
  have hnodup : ((req.ParseForm).1.map Prod.fst).Nodup :=
    copyValues_nodup _ _ (copyValues_nodup _ _ List.nodup_nil)
  simp only [ParseParams, hct, if_true, herr, Bool.false_eq_true, if_false]
  rw [Values.slice_copyValues _ _ _ hnodup, hform]

/-! ## The db plugin -/

/-- C10: benign-versus-fatal rule of the transaction plugin.  With a transaction `tx`
attached, `AfterRequest` panics exactly when `Commit` returns an error other than
`sql.ErrTxDone` (and then panics with that error); when it does not panic the controller
comes back with `Txn` cleared to nil and nothing else changed.  `OnException` returns the
controller untouched when no transaction is attached; with `tx` attached it calls
`Rollback` (the transaction left attached is `tx` after the rollback) and panics exactly
when `Rollback` returns an error other than `sql.ErrTxDone`. -/
theorem DbPlugin_benign_versus_fatal (c : Controller) :
    (∀ tx, c.Txn = some tx →
      ((DbPlugin.AfterRequest c).failed = true ↔
        ∃ err, (tx.Commit).1 = some err ∧ err ≠ SqlError.ErrTxDone) ∧
      (∀ err, (tx.Commit).1 = some err → err ≠ SqlError.ErrTxDone →
        DbPlugin.AfterRequest c = Outcome.panicErr err) ∧
      ((DbPlugin.AfterRequest c).failed = false →
        DbPlugin.AfterRequest c = Outcome.ok { c with Txn := none }) ∧
      ((DbPlugin.OnException c).failed = true ↔
        ∃ err, (tx.Rollback).1 = some err ∧ err ≠ SqlError.ErrTxDone) ∧
      (∀ err, (tx.Rollback).1 = some err → err ≠ SqlError.ErrTxDone →
        DbPlugin.OnException c = Outcome.panicErr err) ∧
      ((DbPlugin.OnException c).failed = false →
        DbPlugin.OnException c = Outcome.ok { c with Txn := some (tx.Rollback).2 })) ∧
    (c.Txn = none → DbPlugin.OnException c = Outcome.ok c) := by
  refine ⟨fun tx htx => ⟨?_, ?_, ?_, ?_, ?_, ?_⟩, fun hnone => ?_⟩
  · cases hc : (tx.Commit).1 with
    | none => simp [DbPlugin.AfterRequest, htx, hc, Outcome.failed]
    | some err =>
      by_cases he : err = SqlError.ErrTxDone <;>
        simp [DbPlugin.AfterRequest, htx, hc, Outcome.failed, he]
  · intro err hc he
    simp [DbPlugin.AfterRequest, htx, hc, he]
  · cases hc : (tx.Commit).1 with
    | none => simp [DbPlugin.AfterRequest, htx, hc, Outcome.failed]
    | some err =>
      by_cases he : err = SqlError.ErrTxDone <;>
        simp [DbPlugin.AfterRequest, htx, hc, Outcome.failed, he]
  · cases hc : (tx.Rollback).1 with
    | none => simp [DbPlugin.OnException, htx, hc, Outcome.failed]
    | some err =>
      by_cases he : err = SqlError.ErrTxDone <;>
        simp [DbPlugin.OnException, htx, hc, Outcome.failed, he]
  · intro err hc he
    simp [DbPlugin.OnException, htx, hc, he]
  · cases hc : (tx.Rollback).1 with
    | none => simp [DbPlugin.OnException, htx, hc, Outcome.failed]
    | some err =>
      by_cases he : err = SqlError.ErrTxDone <;>
        simp [DbPlugin.OnException, htx, hc, Outcome.failed, he]
  · simp [DbPlugin.OnException, hnone]

/-- Witness of C10: a commit that fails with a driver error other than `ErrTxDone`
makes `AfterRequest` panic. -/
theorem DbPlugin_benign_versus_fatal_witness :
    (Controller.mk (Request.mk [] [] [] [] none []) ⟨[], false⟩ [] []
        (some ⟨false, some (SqlError.other (str "disk full")), none⟩)).Txn =
      some ⟨false, some (SqlError.other (str "disk full")), none⟩ ∧
    (DbPlugin.AfterRequest (Controller.mk (Request.mk [] [] [] [] none []) ⟨[], false⟩ [] []
        (some ⟨false, some (SqlError.other (str "disk full")), none⟩))).failed = true :=
  ⟨rfl,
   ((DbPlugin_benign_versus_fatal (Controller.mk (Request.mk [] [] [] [] none []) ⟨[], false⟩ [] []
        (some ⟨false, some (SqlError.other (str "disk full")), none⟩))).1
      ⟨false, some (SqlError.other (str "disk full")), none⟩ rfl).1.mpr
     ⟨SqlError.other (str "disk full"), rfl, by decide⟩⟩

/-! ## URL escaping -/

set_option maxRecDepth 1000000 in
theorem unescaped_not_special :
    ∀ c : Byte, shouldEscape c = false → c.val ≠ 37 ∧ c.val ≠ 43 := by
  decide

set_option maxRecDepth 1000000 in
theorem hex_round_trip :
    ∀ c : Byte, ishex (upperhex (c.val / 16)) = true ∧ ishex (upperhex (c.val % 16)) = true ∧
      (Fin.ofNat (unhex (upperhex (c.val / 16)) * 16 + unhex (upperhex (c.val % 16))) : Byte) = c := by
  decide

theorem QueryUnescape_plus_aux (c : Byte) (rest : GoString) (h2 : c.val = 43) :
    QueryUnescape (c :: rest) = (QueryUnescape rest).map (fun t => (32 : Byte) :: t) := by
  cases rest with
  | nil => simp [QueryUnescape, h2]
  | cons x r => cases r <;> simp [QueryUnescape, h2]

theorem QueryUnescape_plain (c : Byte) (rest : GoString) (h1 : c.val ≠ 37) (h2 : c.val ≠ 43) :
    QueryUnescape (c :: rest) = (QueryUnescape rest).map (fun t => c :: t) := by
  cases rest with
  | nil => simp [QueryUnescape, h1, h2]
  | cons x r => cases r <;> simp [QueryUnescape, h1, h2]

theorem QueryUnescape_plus (rest : GoString) :
    QueryUnescape ((43 : Byte) :: rest) = (QueryUnescape rest).map (fun t => (32 : Byte) :: t) := by
  exact QueryUnescape_plus_aux (43 : Byte) rest rfl

theorem QueryUnescape_percent (x y : Byte) (rest : GoString)
    (hx : ishex x = true) (hy : ishex y = true) :
    QueryUnescape ((37 : Byte) :: x :: y :: rest) =
      (QueryUnescape rest).map (fun t => (Fin.ofNat (unhex x * 16 + unhex y) : Byte) :: t) := by
  have h1 : (37 : Byte).val = 37 := rfl
  rw [QueryUnescape]
  simp only [h1, if_true, hx, hy, Bool.and_self]

theorem QueryUnescape_QueryEscape (s : GoString) :
    QueryUnescape (QueryEscape s) = some s := by
  induction s with
  | nil => rfl
  | cons c rest ih =>
    by_cases hesc : shouldEscape c = true
    · by_cases hsp : c.val = 32
      · have hc : c = (32 : Byte) := Fin.ext hsp
        have hq : QueryEscape (c :: rest) = (43 : Byte) :: QueryEscape rest := by
          simp only [QueryEscape, hesc, hsp, if_true]
        rw [hq, QueryUnescape_plus, ih, hc]
        rfl
      · obtain ⟨h1, h2, h3⟩ := hex_round_trip c
        have hq : QueryEscape (c :: rest) =
            (37 : Byte) :: upperhex (c.val / 16) :: upperhex (c.val % 16) :: QueryEscape rest := by
          simp only [QueryEscape, hesc, hsp, if_true, if_false]
        rw [hq, QueryUnescape_percent _ _ _ h1 h2, ih, h3]
        rfl
    · have hesc2 : shouldEscape c = false := by simpa using hesc
      obtain ⟨h1, h2⟩ := unescaped_not_special c hesc2
      have hq : QueryEscape (c :: rest) = c :: QueryEscape rest := by
        simp only [QueryEscape, hesc2, Bool.false_eq_true, if_false]
      rw [hq, QueryUnescape_plain c _ h1 h2, ih]
      rfl

/-! ## The validation cookie -/

theorem errorsValue_loop_spec (h : Heap) (es : List Ptr) (acc : GoString)
    (hwf : ∀ p ∈ es, (h.read p).isSome = true) :
    errorsValue.loop h es acc =
      some (acc ++ ((es.filterMap h.read).filter (fun e => decide (e.Message ≠ []))).flatMap
        (fun e => [(0 : Byte)] ++ e.Key ++ [(58 : Byte)] ++ e.Message ++ [(0 : Byte)])) := by
  induction es generalizing acc with
  | nil => simp [errorsValue.loop]
  | cons e rest ih =>
    have hrest : ∀ p ∈ rest, (h.read p).isSome = true :=
      fun p hp => hwf p (List.mem_cons_of_mem _ hp)
    obtain ⟨err, herr⟩ := Option.isSome_iff_exists.mp (hwf e (List.mem_cons_self _ _))
    by_cases hm : err.Message = []
    · simp [errorsValue.loop, herr, hm, ih _ hrest]
    · simp [errorsValue.loop, herr, hm, ih _ hrest]

theorem AfterRequest_value (cookiePrefix : GoString) (h : Heap) (c : Controller)
    (m : GoMap Ptr) (hm : c.Validation.ErrorMap h = some m)
    (hwf : ∀ p ∈ c.Validation.Errors, (h.read p).isSome = true) :
    ValidationPlugin.AfterRequest cookiePrefix h c =
      some (Controller.SetCookie
        { c with RenderArgs := GoMap.set c.RenderArgs (str "errors") (GoValue.errors m) }
        { Name := cookiePrefix ++ str "_ERRORS",
          Value := QueryEscape
            (if c.Validation.keep then
              ((c.Validation.Errors.filterMap h.read).filter
                (fun e => decide (e.Message ≠ []))).flatMap
                (fun e => [(0 : Byte)] ++ e.Key ++ [(58 : Byte)] ++ e.Message ++ [(0 : Byte)])
             else []),
          Path := str "/" }) := by
  have hloop := errorsValue_loop_spec h c.Validation.Errors [] hwf
  cases hk : c.Validation.keep with
  | false => simp [ValidationPlugin.AfterRequest, hm, hk]
  | true => simp [ValidationPlugin.AfterRequest, hm, hk, hloop]

/-- C7: cookie encoding in `ValidationPlugin.AfterRequest`.  When every pointer in
`Errors` refers to an error, the hook returns the controller with exactly one more cookie
set on the response: its name is `CookiePrefix + "_ERRORS"`, its Path is "/", and its value
is `url.QueryEscape(S)`, where `S` is, when `keep` is set, the concatenation in `Errors`
order of NUL + Key + ":" + Message + NUL over the errors whose Message is non-empty, and
`S` is empty (so the value is empty) when `keep` is not set.  The render arguments hold
`ErrorMap()` under the key "errors", and the validation context is unchanged. -/
theorem AfterRequest_cookie_encoding (cookiePrefix : GoString) (h : Heap) (c : Controller)
    (hwf : ∀ p ∈ c.Validation.Errors, (h.read p).isSome = true) :
    ∃ m c1, c.Validation.ErrorMap h = some m ∧
      ValidationPlugin.AfterRequest cookiePrefix h c = some c1 ∧
      c1.SetCookies = c.SetCookies ++
        [{ Name := cookiePrefix ++ str "_ERRORS",
           Value := QueryEscape
             (if c.Validation.keep then
               ((c.Validation.Errors.filterMap h.read).filter
                 (fun e => decide (e.Message ≠ []))).flatMap
                 (fun e => [(0 : Byte)] ++ e.Key ++ [(58 : Byte)] ++ e.Message ++ [(0 : Byte)])
              else []),
           Path := str "/" }] ∧
      (c.Validation.keep = false →
        c1.SetCookies = c.SetCookies ++
          [{ Name := cookiePrefix ++ str "_ERRORS", Value := [], Path := str "/" }]) ∧
      GoMap.lookup c1.RenderArgs (str "errors") = some (GoValue.errors m) ∧
      (∀ k, k ≠ str "errors" → GoMap.lookup c1.RenderArgs k = GoMap.lookup c.RenderArgs k) ∧
      c1.Validation = c.Validation := by
  obtain ⟨m, hm⟩ := ErrorMap_total h c.Validation hwf
  have hval := AfterRequest_value cookiePrefix h c m hm hwf
  refine ⟨m, _, hm, hval, ?_, ?_, ?_, ?_, ?_⟩
  · simp [Controller.SetCookie]
  · intro hk
    simp [Controller.SetCookie, hk, QueryEscape]
  · simp [Controller.SetCookie, GoMap.lookup_set]
  · intro k hne
    have hne2 : ¬ str "errors" = k := fun e => hne e.symm
    simp [Controller.SetCookie, GoMap.lookup_set, hne2]
  · simp [Controller.SetCookie]

theorem scanRecords_key (k acc rest : GoString) (hk : (58 : Byte) ∉ k) :
    scanRecords (ScanState.key acc) (k ++ (58 : Byte) :: rest) =
      scanRecords (ScanState.message (acc ++ k) []) rest := by
  have h58 : (58 : Byte).val = 58 := rfl
  induction k generalizing acc with
  | nil => simp [scanRecords, h58]
  | cons b bs ih =>
    have hb : ¬ b.val = 58 := by
      intro e
      exact hk (by simp [Fin.ext (show b.val = (58 : Byte).val from e)])
    have hbs : (58 : Byte) ∉ bs := fun hmem => hk (List.mem_cons_of_mem _ hmem)
    simp [scanRecords, hb, ih _ hbs]

theorem scanRecords_message (k m acc rest : GoString) (hm : (0 : Byte) ∉ m) :
    scanRecords (ScanState.message k acc) (m ++ (0 : Byte) :: rest) =
      (k, acc ++ m) :: scanRecords ScanState.idle rest := by
  induction m generalizing acc with
  | nil => simp [scanRecords]
  | cons b bs ih =>
    have hb : ¬ b.val = 0 := by
      intro e
      exact hm (by simp [Fin.ext (show b.val = (0 : Byte).val from e)])
    have hbs : (0 : Byte) ∉ bs := fun hmem => hm (List.mem_cons_of_mem _ hmem)
    simp [scanRecords, hb, ih _ hbs]

theorem scanRecords_records (errs : List ValidationError)
    (hgood : ∀ e ∈ errs, (58 : Byte) ∉ e.Key ∧ (0 : Byte) ∉ e.Message) :
    scanRecords ScanState.idle
        (errs.flatMap
          (fun e => [(0 : Byte)] ++ e.Key ++ [(58 : Byte)] ++ e.Message ++ [(0 : Byte)])) =
      errs.map (fun e => (e.Key, e.Message)) := by
  induction errs with
  | nil => simp [scanRecords]
  | cons e rest ih =>
    obtain ⟨hk, hm⟩ := hgood e (List.mem_cons_self _ _)
    have hrest := ih (fun e2 h2 => hgood e2 (List.mem_cons_of_mem _ h2))
    have hshape : (e :: rest).flatMap
          (fun e => [(0 : Byte)] ++ e.Key ++ [(58 : Byte)] ++ e.Message ++ [(0 : Byte)]) =
        (0 : Byte) :: (e.Key ++ (58 : Byte) :: (e.Message ++ (0 : Byte) ::
          rest.flatMap
            (fun e => [(0 : Byte)] ++ e.Key ++ [(58 : Byte)] ++ e.Message ++ [(0 : Byte)]))) := by
      simp
    have h0 : (0 : Byte).val = 0 := rfl
    rw [hshape, scanRecords]
    simp only [h0, if_true]
    rw [scanRecords_key _ _ _ hk, scanRecords_message _ _ _ _ hm, hrest]
    simp

theorem collect_spec (recs : List (GoString × GoString)) (errors : List Ptr) (h : Heap) :
    restoreValidationErrors.collect recs errors h =
      (errors ++ List.range' h.cells.length recs.length,
       ⟨h.cells ++ recs.map (fun r => { Message := r.2, Key := r.1 })⟩) := by
  induction recs generalizing errors h with
  | nil => simp [restoreValidationErrors.collect]
  | cons r rest ih =>
    obtain ⟨key, val⟩ := r
    simp [restoreValidationErrors.collect, Heap.alloc, ih, List.range'_succ]

theorem read_fresh_range (old new : List ValidationError) :
    (List.range' old.length new.length).map (fun p => (⟨old ++ new⟩ : Heap).read p) =
      new.map some := by
  induction new generalizing old with
  | nil => simp
  | cons e rest ih =>
    have hstep := ih (old ++ [e])
    simp only [List.length_append, List.length_singleton, List.append_assoc,
      List.singleton_append] at hstep
    have hhead : (old ++ e :: rest)[old.length]? = some e := by
      rw [List.getElem?_append_right (Nat.le_refl _)]
      simp
    simp only [List.length_cons, List.range'_succ, List.map_cons, hstep]
    simp only [Heap.read, List.get?_eq_getElem?, hhead]

theorem map_read_of_wf (h : Heap) (es : List Ptr)
    (hwf : ∀ p ∈ es, (h.read p).isSome = true) :
    es.map h.read = (es.filterMap h.read).map some := by
  induction es with
  | nil => rfl
  | cons e rest ih =>
    obtain ⟨err, herr⟩ := Option.isSome_iff_exists.mp (hwf e (List.mem_cons_self _ _))
    have hrest := ih (fun p hp => hwf p (List.mem_cons_of_mem _ hp))
    simp [herr, hrest]

theorem restore_of_value (cookiePrefix : GoString) (h2 : Heap) (req : Request) (ck : Cookie)
    (errs : List ValidationError)
    (hreq : req.Cookie (cookiePrefix ++ str "_ERRORS") = some ck)
    (hval : ParseKeyValueCookie ck.Value = errs.map (fun e => (e.Key, e.Message))) :
    restoreValidationErrors cookiePrefix h2 req =
      (List.range' h2.cells.length errs.length, ⟨h2.cells ++ errs⟩) := by
  have hid : ((fun r : GoString × GoString => ({ Message := r.2, Key := r.1 } : ValidationError)) ∘
      fun e : ValidationError => (e.Key, e.Message)) = id := funext (fun _ => rfl)
  simp only [restoreValidationErrors, hreq, hval, collect_spec]
  simp [hid]

theorem cookie_lookup_found (req : Request) (name : GoString) (pre post : List Cookie)
    (ck : Cookie) (hsplit : req.Cookies = pre ++ ck :: post)
    (hpre : ∀ x ∈ pre, x.Name ≠ name) (hck : ck.Name = name) :
    req.Cookie name = some ck := by
  unfold Request.Cookie
  rw [hsplit]
  clear hsplit
  induction pre with
  | nil => simp [List.find?, hck]
  | cons x rest ih =>
    have hx : ¬ x.Name = name := hpre x (List.mem_cons_self _ _)
    simp only [List.cons_append, List.find?, hx, decide_False]
    exact ih (fun y hy => hpre y (List.mem_cons_of_mem _ hy))

theorem cookie_lookup_absent (req : Request) (name : GoString)
    (hno : ∀ x ∈ req.Cookies, x.Name ≠ name) : req.Cookie name = none := by
  unfold Request.Cookie
  rw [List.find?_eq_none]
  intro x hx
  simpa using hno x hx

/-- C8: validation-error cookie round trip.  Take a context with `keep` set whose errors
all have a non-empty Message, no ':' and no NUL byte in the Key and no NUL byte in the
Message.  `AfterRequest` sets a cookie `ck` named `CookiePrefix + "_ERRORS"` whose value is
the escaped concatenation of the records of all the errors.  On any later request whose
first cookie of that name carries the value of `ck` (whatever its other attributes),
`restoreValidationErrors` yields a sequence of (freshly allocated) errors that read, one by
one and in the same order, as the errors of the original context, and leaves the errors
that already existed untouched.  A request with no cookie of that name, or whose first
cookie of that name has the empty value, yields the empty error sequence. -/
theorem validation_cookie_round_trip (cookiePrefix : GoString) (h : Heap) (c : Controller)
    (hkeep : c.Validation.keep = true)
    (hwf : ∀ p ∈ c.Validation.Errors, (h.read p).isSome = true)
    (hgood : ∀ p ∈ c.Validation.Errors, ∀ e, h.read p = some e →
      e.Message ≠ [] ∧ (58 : Byte) ∉ e.Key ∧ (0 : Byte) ∉ e.Key ∧ (0 : Byte) ∉ e.Message) :
    ∃ c1 ck, ValidationPlugin.AfterRequest cookiePrefix h c = some c1 ∧
      c1.SetCookies = c.SetCookies ++ [ck] ∧
      ck.Name = cookiePrefix ++ str "_ERRORS" ∧
      ck.Value = QueryEscape ((c.Validation.Errors.filterMap h.read).flatMap
        (fun e => [(0 : Byte)] ++ e.Key ++ [(58 : Byte)] ++ e.Message ++ [(0 : Byte)])) ∧
      (∀ (req : Request) (h2 : Heap) (pre post : List Cookie) (ck2 : Cookie),
        req.Cookies = pre ++ ck2 :: post → (∀ x ∈ pre, x.Name ≠ ck.Name) →
        ck2.Name = ck.Name → ck2.Value = ck.Value →
        (restoreValidationErrors cookiePrefix h2 req).1.map
            (restoreValidationErrors cookiePrefix h2 req).2.read =
          c.Validation.Errors.map h.read ∧
        (restoreValidationErrors cookiePrefix h2 req).1.length = c.Validation.Errors.length ∧
        ∀ q e, h2.read q = some e →
          (restoreValidationErrors cookiePrefix h2 req).2.read q = some e) ∧
      (∀ (req : Request) (h2 : Heap), (∀ x ∈ req.Cookies, x.Name ≠ ck.Name) →
        restoreValidationErrors cookiePrefix h2 req = ([], h2)) ∧
      (∀ (req : Request) (h2 : Heap) (pre post : List Cookie) (ck2 : Cookie),
        req.Cookies = pre ++ ck2 :: post → (∀ x ∈ pre, x.Name ≠ ck.Name) →
        ck2.Name = ck.Name → ck2.Value = [] →
        restoreValidationErrors cookiePrefix h2 req = ([], h2)) := by
  obtain ⟨m, hm⟩ := ErrorMap_total h c.Validation hwf
  have hval := AfterRequest_value cookiePrefix h c m hm hwf
  have hmem : ∀ e ∈ c.Validation.Errors.filterMap h.read,
      e.Message ≠ [] ∧ (58 : Byte) ∉ e.Key ∧ (0 : Byte) ∉ e.Key ∧ (0 : Byte) ∉ e.Message := by
    intro e he
    obtain ⟨p, hp, hpe⟩ := List.mem_filterMap.mp he
    exact hgood p hp e hpe
  have hfilter : (c.Validation.Errors.filterMap h.read).filter
      (fun e => decide (e.Message ≠ [])) = c.Validation.Errors.filterMap h.read := by
    rw [List.filter_eq_self]
    intro e he
    simpa using (hmem e he).1
  rw [hkeep, if_pos rfl, hfilter] at hval
  have hparse : ParseKeyValueCookie
      (QueryEscape ((c.Validation.Errors.filterMap h.read).flatMap
        (fun e => [(0 : Byte)] ++ e.Key ++ [(58 : Byte)] ++ e.Message ++ [(0 : Byte)]))) =
      (c.Validation.Errors.filterMap h.read).map (fun e => (e.Key, e.Message)) := by
    simp only [ParseKeyValueCookie, QueryUnescape_QueryEscape, Option.getD_some]
    exact scanRecords_records _ (fun e he => ⟨(hmem e he).2.1, (hmem e he).2.2.2⟩)
  refine ⟨_, ⟨cookiePrefix ++ str "_ERRORS",
    QueryEscape ((c.Validation.Errors.filterMap h.read).flatMap
      (fun e => [(0 : Byte)] ++ e.Key ++ [(58 : Byte)] ++ e.Message ++ [(0 : Byte)])),
    str "/"⟩, hval, by simp [Controller.SetCookie], rfl, rfl, ?_, ?_, ?_⟩
  · intro req h2 pre post ck2 hsplit hpre hname hvalue
    have hreq := cookie_lookup_found req _ pre post ck2 hsplit hpre hname
    have hparse2 : ParseKeyValueCookie ck2.Value =
        (c.Validation.Errors.filterMap h.read).map (fun e => (e.Key, e.Message)) := by
      rw [hvalue]
      exact hparse
    rw [restore_of_value cookiePrefix h2 req _ _ hreq hparse2]
    refine ⟨?_, ?_, ?_⟩
    · rw [map_read_of_wf h _ hwf]
      exact read_fresh_range h2.cells _
    · have hlen := congrArg List.length (map_read_of_wf h _ hwf)
      simp only [List.length_map] at hlen
      simp [hlen]
    · intro q e hq
      exact Heap.read_extend h2 _ q e hq
  · intro req h2 hno
    have hreq := cookie_lookup_absent req _ hno
    simp [restoreValidationErrors, hreq]
  · intro req h2 pre post ck2 hsplit hpre hname hvalue
    have hreq := cookie_lookup_found req _ pre post ck2 hsplit hpre hname
    simp [restoreValidationErrors, hreq, hvalue, ParseKeyValueCookie, QueryUnescape,
      scanRecords, restoreValidationErrors.collect]

/-- Witness of C7: a context with `keep` set and the errors {a, m1}, {b, ""}, {a, m3};
the record of the error with the empty message is left out of the cookie value. -/
theorem AfterRequest_cookie_encoding_witness :
    (∀ p ∈ (Controller.mk (Request.mk [] [] [] [] none []) ⟨[0, 1, 2], true⟩ [] [] none).Validation.Errors, ((⟨[⟨str "m1", str "a"⟩, ⟨[], str "b"⟩, ⟨str "m3", str "a"⟩]⟩ : Heap).read p).isSome = true) ∧
    ∃ m c1, (Controller.mk (Request.mk [] [] [] [] none []) ⟨[0, 1, 2], true⟩ [] [] none).Validation.ErrorMap (⟨[⟨str "m1", str "a"⟩, ⟨[], str "b"⟩, ⟨str "m3", str "a"⟩]⟩ : Heap) = some m ∧
      ValidationPlugin.AfterRequest (str "REVEL") (⟨[⟨str "m1", str "a"⟩, ⟨[], str "b"⟩, ⟨str "m3", str "a"⟩]⟩ : Heap) (Controller.mk (Request.mk [] [] [] [] none []) ⟨[0, 1, 2], true⟩ [] [] none) = some c1 ∧
      c1.SetCookies = (Controller.mk (Request.mk [] [] [] [] none []) ⟨[0, 1, 2], true⟩ [] [] none).SetCookies ++
        [{ Name := (str "REVEL") ++ str "_ERRORS",
           Value := QueryEscape
             (if (Controller.mk (Request.mk [] [] [] [] none []) ⟨[0, 1, 2], true⟩ [] [] none).Validation.keep then
               (((Controller.mk (Request.mk [] [] [] [] none []) ⟨[0, 1, 2], true⟩ [] [] none).Validation.Errors.filterMap (⟨[⟨str "m1", str "a"⟩, ⟨[], str "b"⟩, ⟨str "m3", str "a"⟩]⟩ : Heap).read).filter
                 (fun e => decide (e.Message ≠ []))).flatMap
                 (fun e => [(0 : Byte)] ++ e.Key ++ [(58 : Byte)] ++ e.Message ++ [(0 : Byte)])
              else []),
           Path := str "/" }] ∧
      ((Controller.mk (Request.mk [] [] [] [] none []) ⟨[0, 1, 2], true⟩ [] [] none).Validation.keep = false →
        c1.SetCookies = (Controller.mk (Request.mk [] [] [] [] none []) ⟨[0, 1, 2], true⟩ [] [] none).SetCookies ++
          [{ Name := (str "REVEL") ++ str "_ERRORS", Value := [], Path := str "/" }]) ∧
      GoMap.lookup c1.RenderArgs (str "errors") = some (GoValue.errors m) ∧
      (∀ k, k ≠ str "errors" → GoMap.lookup c1.RenderArgs k = GoMap.lookup (Controller.mk (Request.mk [] [] [] [] none []) ⟨[0, 1, 2], true⟩ [] [] none).RenderArgs k) ∧
      c1.Validation = (Controller.mk (Request.mk [] [] [] [] none []) ⟨[0, 1, 2], true⟩ [] [] none).Validation :=
  ⟨by decide, AfterRequest_cookie_encoding (str "REVEL") (⟨[⟨str "m1", str "a"⟩, ⟨[], str "b"⟩, ⟨str "m3", str "a"⟩]⟩ : Heap) (Controller.mk (Request.mk [] [] [] [] none []) ⟨[0, 1, 2], true⟩ [] [] none) (by decide)⟩

/-- Witness of C8: the errors {a, m1}, {b, m2} with `keep` set give the cookie value
`%00a%3Am1%00%00b%3Am2%00`; a request that sends the cookies `lang=en` and
`REVEL_ERRORS=%00a%3Am1%00%00b%3Am2%00` restores both errors in order, and a request
that sends only `lang=en` restores none. -/
theorem validation_cookie_round_trip_witness :
    ((Controller.mk (Request.mk [] [] [] [] none []) ⟨[0, 1], true⟩ [] [] none).Validation.keep = true ∧
     (∀ p ∈ (Controller.mk (Request.mk [] [] [] [] none []) ⟨[0, 1], true⟩ [] [] none).Validation.Errors, ((⟨[⟨str "m1", str "a"⟩, ⟨str "m2", str "b"⟩]⟩ : Heap).read p).isSome = true) ∧
     (∀ p ∈ (Controller.mk (Request.mk [] [] [] [] none []) ⟨[0, 1], true⟩ [] [] none).Validation.Errors, ∀ e, (⟨[⟨str "m1", str "a"⟩, ⟨str "m2", str "b"⟩]⟩ : Heap).read p = some e →
       e.Message ≠ [] ∧ (58 : Byte) ∉ e.Key ∧ (0 : Byte) ∉ e.Key ∧ (0 : Byte) ∉ e.Message)) ∧
    (restoreValidationErrors (str "REVEL") ⟨[]⟩ (Request.mk (str "GET") [] [] [] none [⟨str "lang", str "en", []⟩, (⟨str "REVEL_ERRORS", str "%00a%3Am1%00%00b%3Am2%00", []⟩ : Cookie)])).1.map
        (restoreValidationErrors (str "REVEL") ⟨[]⟩ (Request.mk (str "GET") [] [] [] none [⟨str "lang", str "en", []⟩, (⟨str "REVEL_ERRORS", str "%00a%3Am1%00%00b%3Am2%00", []⟩ : Cookie)])).2.read =
      [some ⟨str "m1", str "a"⟩, some ⟨str "m2", str "b"⟩] ∧
    restoreValidationErrors (str "REVEL") ⟨[]⟩ (Request.mk (str "GET") [] [] [] none [⟨str "lang", str "en", []⟩]) = ([], ⟨[]⟩) := by
  have hgood : ∀ p ∈ (Controller.mk (Request.mk [] [] [] [] none []) ⟨[0, 1], true⟩ [] [] none).Validation.Errors, ∀ e, (⟨[⟨str "m1", str "a"⟩, ⟨str "m2", str "b"⟩]⟩ : Heap).read p = some e →
      e.Message ≠ [] ∧ (58 : Byte) ∉ e.Key ∧ (0 : Byte) ∉ e.Key ∧ (0 : Byte) ∉ e.Message := by
    intro p hp e he
    simp only [List.mem_cons, List.mem_singleton, List.not_mem_nil, or_false] at hp
    rcases hp with rfl | rfl
    · have he2 : e = ⟨str "m1", str "a"⟩ := by
        simp [Heap.read] at he
        exact he.symm
      subst he2
      decide
    · have he2 : e = ⟨str "m2", str "b"⟩ := by
        simp [Heap.read] at he
        exact he.symm
      subst he2
      decide
  obtain ⟨c1, ck, _, _, hname, hvalue, hround, habsent, _⟩ :=
    validation_cookie_round_trip (str "REVEL") (⟨[⟨str "m1", str "a"⟩, ⟨str "m2", str "b"⟩]⟩ : Heap) (Controller.mk (Request.mk [] [] [] [] none []) ⟨[0, 1], true⟩ [] [] none) rfl (by decide) hgood
  refine ⟨⟨rfl, by decide, hgood⟩, ?_, ?_⟩
  · exact (hround (Request.mk (str "GET") [] [] [] none [⟨str "lang", str "en", []⟩, (⟨str "REVEL_ERRORS", str "%00a%3Am1%00%00b%3Am2%00", []⟩ : Cookie)]) ⟨[]⟩ [⟨str "lang", str "en", []⟩] [] (⟨str "REVEL_ERRORS", str "%00a%3Am1%00%00b%3Am2%00", []⟩ : Cookie) rfl
      (by rw [hname]; decide) (by rw [hname]; decide) (by rw [hvalue]; decide)).1
  · exact habsent (Request.mk (str "GET") [] [] [] none [⟨str "lang", str "en", []⟩]) ⟨[]⟩ (by rw [hname]; decide)

/-! ## `Field.Value` -/

/-- C5, the code as it is: `Field.Value` panics on unset values.  With render arguments
in which "booking" is a nil pointer, or the nil interface, the name
"booking.CheckInDate" makes `FieldByName` panic (it is called on the zero Value); with
"user" mapped to the nil interface, the single-segment name "user" makes `Interface` panic.
A missing top-level key, and a struct without the named field, do yield "". -/
theorem Field_Value_panics_on_unset_value :
    Field.Value ⟨str "booking.CheckInDate", none, [(str "booking", GoValue.ptr none)]⟩ = none ∧
    Field.Value ⟨str "booking.CheckInDate", none, [(str "booking", GoValue.nil)]⟩ = none ∧
    Field.Value ⟨str "user", none, [(str "user", GoValue.nil)]⟩ = none ∧
    Field.Value ⟨str "booking.CheckInDate", none, []⟩ = some (GoValue.str []) ∧
    Field.Value ⟨str "", none, []⟩ = some (GoValue.str []) ∧
    Field.Value ⟨str "booking.Missing", none,
      [(str "booking",
        GoValue.struct [(str "CheckInDate", ⟨true, false, false⟩, GoValue.str (str "2024-01-01"))] [])]⟩ =
      some (GoValue.str []) :=
  ⟨rfl, rfl, rfl, rfl, rfl, rfl⟩

/-- C6 as stated fails, in three ways.  In the render arguments
{"booking": {checkInDate: "2024-01-01"}} the segment "checkInDate" names a member of the
struct, yet `Value()` for "booking.checkInDate" does not return it: the field is
unexported, and `Interface()` panics on a value reached through an unexported field.  In
{"a": {Inner: {X: "x"}}} with `Inner` of type `interface{}`, "Inner" names a member of the
struct and "X" a member of the struct it holds, yet `Value()` for "a.Inner.X" panics:
only pointers are dereferenced, and `FieldByName` panics on a Value of Kind Interface.
With the key "flash" present and mapped to the nil interface, `Value()` for the
single-segment name "flash" does not return the top-level value: `Interface()` panics on
the zero Value. -/
theorem Field_Value_unexported_member_panics :
    (specMember
        (GoValue.struct [(str "checkInDate", ⟨false, false, false⟩,
          GoValue.str (str "2024-01-01"))] [])
        (str "checkInDate") = some (⟨false, false, false⟩, GoValue.str (str "2024-01-01")) ∧
     Field.Value ⟨str "booking.checkInDate", none,
       [(str "booking",
         GoValue.struct [(str "checkInDate", ⟨false, false, false⟩,
           GoValue.str (str "2024-01-01"))] [])]⟩ = none) ∧
    (specMember
        (GoValue.struct [(str "Inner", ⟨true, false, true⟩,
          GoValue.struct [(str "X", ⟨true, false, false⟩, GoValue.str (str "x"))] [])] [])
        (str "Inner") =
       some (⟨true, false, true⟩, GoValue.struct [(str "X", ⟨true, false, false⟩, GoValue.str (str "x"))] []) ∧
     specMember (GoValue.struct [(str "X", ⟨true, false, false⟩, GoValue.str (str "x"))] []) (str "X") =
       some (⟨true, false, false⟩, GoValue.str (str "x")) ∧
     Field.Value ⟨str "a.Inner.X", none,
       [(str "a",
         GoValue.struct [(str "Inner", ⟨true, false, true⟩,
           GoValue.struct [(str "X", ⟨true, false, false⟩, GoValue.str (str "x"))] [])] [])]⟩ = none) ∧
    (GoMap.lookup [(str "flash", GoValue.nil)] (str "flash") = some GoValue.nil ∧
     Field.Value ⟨str "flash", none, [(str "flash", GoValue.nil)]⟩ = none) :=
  ⟨⟨rfl, rfl⟩, ⟨rfl, rfl, rfl⟩, ⟨rfl, rfl⟩⟩

theorem FieldByName_of_structMember (fields : List (GoString × FieldMeta × GoValue))
    (promoted : List (GoString × FieldMeta × Option GoValue)) (sticky embed : Bool)
    (seg : GoString) (m : FieldMeta) (member : GoValue)
    (hmem : structMember fields promoted seg = some (m, member)) :
    (RValue.val (GoValue.struct fields promoted) sticky embed false).FieldByName seg =
      some (RValue.ofField sticky m member) := by
  unfold structMember at hmem
  by_cases hseg : seg = []
  · simp [hseg] at hmem
  · simp only [hseg, if_false] at hmem
    cases hd : lookupField fields seg with
    | some r =>
      rw [hd] at hmem
      simp only [Option.some.injEq] at hmem
      subst hmem
      simp [RValue.FieldByName, hseg, hd]
    | none =>
      rw [hd] at hmem
      cases hp : lookupField promoted seg with
      | none => simp [hp] at hmem
      | some r =>
        obtain ⟨m2, o⟩ := r
        cases o with
        | none => simp [hp] at hmem
        | some fv =>
          simp only [hp, Option.some.injEq, Prod.mk.injEq] at hmem
          obtain ⟨hm, hfv⟩ := hmem
          subst hm
          subst hfv
          simp [RValue.FieldByName, hseg, hd, hp]

theorem FieldByName_absent (fields : List (GoString × FieldMeta × GoValue))
    (promoted : List (GoString × FieldMeta × Option GoValue)) (sticky embed : Bool)
    (seg : GoString)
    (hno : seg = [] ∨ (lookupField fields seg = none ∧ lookupField promoted seg = none)) :
    (RValue.val (GoValue.struct fields promoted) sticky embed false).FieldByName seg =
      some RValue.invalid := by
  by_cases hseg : seg = []
  · simp [RValue.FieldByName, hseg]
  · rcases hno with h0 | ⟨hd, hp⟩
    · exact absurd h0 hseg
    · simp [RValue.FieldByName, hseg, hd, hp]

theorem loop_step_of_member (v member : GoValue) (m : FieldMeta) (seg : GoString)
    (rest : List GoString) (hexp : m.exported = true)
    (hmem : specMember v seg = some (m, member)) :
    Field.Value.loop (seg :: rest) (RValue.val v false false false) =
      Field.Value.loop rest (RValue.val member false false m.iface) := by
  cases v with
  | nil => simp [specMember] at hmem
  | str s => simp [specMember] at hmem
  | other n => simp [specMember] at hmem
  | errors e => simp [specMember] at hmem
  | ifacePtr d => simp [specMember] at hmem
  | struct fields promoted =>
    simp only [specMember] at hmem
    simp [Field.Value.loop, RValue.isPtr,
      FieldByName_of_structMember fields promoted false false seg m member hmem,
      RValue.ofField, hexp, RValue.IsValid]
  | ptr t =>
    cases t with
    | none => simp [specMember] at hmem
    | some w =>
      cases w with
      | nil => simp [specMember] at hmem
      | str s => simp [specMember] at hmem
      | other n => simp [specMember] at hmem
      | errors e => simp [specMember] at hmem
      | ifacePtr d => simp [specMember] at hmem
      | ptr t2 => simp [specMember] at hmem
      | struct fields promoted =>
        simp only [specMember] at hmem
        simp [Field.Value.loop, RValue.isPtr, RValue.Elem,
          FieldByName_of_structMember fields promoted false false seg m member hmem,
          RValue.ofField, hexp, RValue.IsValid]

theorem loop_resolves (segs : List GoString) (v target : GoValue) (iface ifaceT : Bool)
    (hres : specResolve v iface segs = some (target, ifaceT)) :
    Field.Value.loop segs (RValue.val v false false iface) = some target := by
  induction segs generalizing v iface with
  | nil =>
    simp only [specResolve, Option.some.injEq, Prod.mk.injEq] at hres
    simp [Field.Value.loop, RValue.Interface, hres.1]
  | cons seg rest ih =>
    cases iface with
    | true => simp [specResolve] at hres
    | false =>
      cases hmem : specMember v seg with
      | none => simp [specResolve, hmem] at hres
      | some r =>
        obtain ⟨m, member⟩ := r
        cases hexp : m.exported with
        | false => simp [specResolve, hmem, hexp] at hres
        | true =>
          simp only [specResolve, hmem, hexp, Bool.false_eq_true, if_false, if_true] at hres
          rw [loop_step_of_member v member m seg rest hexp hmem]
          exact ih member m.iface hres

theorem loop_missing (pre post : List GoString) (seg : GoString) (v w : GoValue)
    (iface : Bool) (fields : List (GoString × FieldMeta × GoValue))
    (promoted : List (GoString × FieldMeta × Option GoValue))
    (hres : specResolve v iface pre = some (w, false))
    (hw : w = GoValue.struct fields promoted ∨
      w = GoValue.ptr (some (GoValue.struct fields promoted)))
    (hno : seg = [] ∨ (lookupField fields seg = none ∧ lookupField promoted seg = none)) :
    Field.Value.loop (pre ++ seg :: post) (RValue.val v false false iface) =
      some (GoValue.str []) := by
  induction pre generalizing v iface with
  | nil =>
    simp only [specResolve, Option.some.injEq, Prod.mk.injEq] at hres
    obtain ⟨hv, hi⟩ := hres
    subst hv
    subst hi
    rcases hw with rfl | rfl
    · simp [Field.Value.loop, RValue.isPtr,
        FieldByName_absent fields promoted false false seg hno, RValue.IsValid]
    · simp [Field.Value.loop, RValue.isPtr, RValue.Elem,
        FieldByName_absent fields promoted false false seg hno, RValue.IsValid]
  | cons s rest ih =>
    cases iface with
    | true => simp [specResolve] at hres
    | false =>
      cases hmem : specMember v s with
      | none => simp [specResolve, hmem] at hres
      | some r =>
        obtain ⟨m, member⟩ := r
        cases hexp : m.exported with
        | false => simp [specResolve, hmem, hexp] at hres
        | true =>
          simp only [specResolve, hmem, hexp, Bool.false_eq_true, if_false, if_true] at hres
          rw [List.cons_append, loop_step_of_member v member m s _ hexp hmem]
          exact ih member m.iface hres

/-- C6, amended: `Field.Value` resolves a dotted path over exported members.  Let the
field name split at '.' into `p0` and the segments `segs`, and let `p0` be a key of the
render arguments whose value `answer` is not the nil interface.  If the segments resolve
from `answer` to `target` (each names an exported field, declared or promoted, of the
struct reached so far, after dereferencing one level of pointer, and no value held in a
field of interface type is traversed), then `Value()` returns `target`; with no segments it
returns `answer` itself.  If instead the segments resolve up to a struct (or pointer to a
struct, not held in a field of interface type) that has no field, declared or promoted,
named by the next segment, `Value()` returns "". -/
theorem Field_Value_resolves_exported_path (f : Field) (p0 : GoString)
    (segs : List GoString) (answer : GoValue)
    (hsplit : Split f.Name 46 = p0 :: segs)
    (hkey : GoMap.lookup f.renderArgs p0 = some answer)
    (hnil : answer ≠ GoValue.nil) :
    (∀ target ifaceT, specResolve answer false segs = some (target, ifaceT) →
      Field.Value f = some target) ∧
    (segs = [] → Field.Value f = some answer) ∧
    (∀ pre post seg w fields promoted, segs = pre ++ seg :: post →
      specResolve answer false pre = some (w, false) →
      (w = GoValue.struct fields promoted ∨
        w = GoValue.ptr (some (GoValue.struct fields promoted))) →
      (seg = [] ∨ (lookupField fields seg = none ∧ lookupField promoted seg = none)) →
      Field.Value f = some (GoValue.str [])) := by
  have hof : reflectValueOf answer = RValue.val answer false false false := by
    cases answer with
    | nil => exact absurd rfl hnil
    | str s => rfl
    | other n => rfl
    | errors m => rfl
    | ptr t => rfl
    | ifacePtr d => rfl
    | struct fields promoted => rfl
  have hval : Field.Value f = Field.Value.loop segs (RValue.val answer false false false) := by
    simp [Field.Value, hsplit, hkey, hof]
  refine ⟨fun target ifaceT hres => ?_, fun hempty => ?_, ?_⟩
  · rw [hval]
    exact loop_resolves segs answer target false ifaceT hres
  · rw [hval, hempty]
    simp [Field.Value.loop, RValue.Interface]
  · intro pre post seg w fields promoted hsegs hres hw hno
    rw [hval, hsegs]
    exact loop_missing pre post seg answer w false fields promoted hres hw hno

/-- Witness of C6: with the render arguments {"booking": {CheckInDate: "2024-01-01"}},
the name "booking.CheckInDate" resolves to "2024-01-01"; with "user" a pointer to a struct
that embeds `Base{Id: "7"}`, the name "user.Id" resolves to the promoted field. -/
theorem Field_Value_resolves_exported_path_witness :
    ((Split (str "booking.CheckInDate") 46 = [str "booking", str "CheckInDate"] ∧
      GoMap.lookup [(str "booking", (GoValue.struct [(str "CheckInDate", ⟨true, false, false⟩, GoValue.str (str "2024-01-01"))] []))] (str "booking") = some (GoValue.struct [(str "CheckInDate", ⟨true, false, false⟩, GoValue.str (str "2024-01-01"))] []) ∧
      (GoValue.struct [(str "CheckInDate", ⟨true, false, false⟩, GoValue.str (str "2024-01-01"))] []) ≠ GoValue.nil ∧
      specResolve (GoValue.struct [(str "CheckInDate", ⟨true, false, false⟩, GoValue.str (str "2024-01-01"))] []) false [str "CheckInDate"] =
        some (GoValue.str (str "2024-01-01"), false)) ∧
     Field.Value ⟨str "booking.CheckInDate", none, [(str "booking", (GoValue.struct [(str "CheckInDate", ⟨true, false, false⟩, GoValue.str (str "2024-01-01"))] []))]⟩ =
       some (GoValue.str (str "2024-01-01"))) ∧
    ((Split (str "user.Id") 46 = [str "user", str "Id"] ∧
      GoMap.lookup [(str "user", (GoValue.ptr (some (GoValue.struct [(str "Base", ⟨true, true, false⟩, (GoValue.struct [(str "Id", ⟨true, false, false⟩, GoValue.str (str "7"))] []))] [(str "Id", ⟨true, false, false⟩, some (GoValue.str (str "7")))]))))] (str "user") = some (GoValue.ptr (some (GoValue.struct [(str "Base", ⟨true, true, false⟩, (GoValue.struct [(str "Id", ⟨true, false, false⟩, GoValue.str (str "7"))] []))] [(str "Id", ⟨true, false, false⟩, some (GoValue.str (str "7")))]))) ∧
      (GoValue.ptr (some (GoValue.struct [(str "Base", ⟨true, true, false⟩, (GoValue.struct [(str "Id", ⟨true, false, false⟩, GoValue.str (str "7"))] []))] [(str "Id", ⟨true, false, false⟩, some (GoValue.str (str "7")))]))) ≠ GoValue.nil ∧
      specResolve (GoValue.ptr (some (GoValue.struct [(str "Base", ⟨true, true, false⟩, (GoValue.struct [(str "Id", ⟨true, false, false⟩, GoValue.str (str "7"))] []))] [(str "Id", ⟨true, false, false⟩, some (GoValue.str (str "7")))]))) false [str "Id"] = some (GoValue.str (str "7"), false)) ∧
     Field.Value ⟨str "user.Id", none, [(str "user", (GoValue.ptr (some (GoValue.struct [(str "Base", ⟨true, true, false⟩, (GoValue.struct [(str "Id", ⟨true, false, false⟩, GoValue.str (str "7"))] []))] [(str "Id", ⟨true, false, false⟩, some (GoValue.str (str "7")))]))))]⟩ = some (GoValue.str (str "7"))) :=
  ⟨⟨⟨by decide, rfl, fun e => GoValue.noConfusion e, rfl⟩,
    (Field_Value_resolves_exported_path ⟨str "booking.CheckInDate", none, [(str "booking", (GoValue.struct [(str "CheckInDate", ⟨true, false, false⟩, GoValue.str (str "2024-01-01"))] []))]⟩
      (str "booking") [str "CheckInDate"] (GoValue.struct [(str "CheckInDate", ⟨true, false, false⟩, GoValue.str (str "2024-01-01"))] [])
      (by decide) rfl (fun e => GoValue.noConfusion e)).1
      (GoValue.str (str "2024-01-01")) false rfl⟩,
   ⟨⟨by decide, rfl, fun e => GoValue.noConfusion e, rfl⟩,
    (Field_Value_resolves_exported_path ⟨str "user.Id", none, [(str "user", (GoValue.ptr (some (GoValue.struct [(str "Base", ⟨true, true, false⟩, (GoValue.struct [(str "Id", ⟨true, false, false⟩, GoValue.str (str "7"))] []))] [(str "Id", ⟨true, false, false⟩, some (GoValue.str (str "7")))]))))]⟩
      (str "user") [str "Id"] (GoValue.ptr (some (GoValue.struct [(str "Base", ⟨true, true, false⟩, (GoValue.struct [(str "Id", ⟨true, false, false⟩, GoValue.str (str "7"))] []))] [(str "Id", ⟨true, false, false⟩, some (GoValue.str (str "7")))])))
      (by decide) rfl (fun e => GoValue.noConfusion e)).1
      (GoValue.str (str "7")) false rfl⟩⟩

/-! ## `Field.Id` -/

theorem map_of_Count_zero (old new : Byte) (s : GoString) (hc : Count s old = 0) :
    s.map (fun c => if c = old then new else c) = s := by
  induction s with
  | nil => rfl
  | cons c rest ih =>
    by_cases hco : c = old
    · simp [Count, hco] at hc
    · simp only [Count, hco, if_false] at hc
      simp [hco, ih hc]

theorem Replace_go_all (old new : Byte) (s : GoString) (n : Nat) (hn : Count s old ≤ n) :
    Replace.go old [new] s n = s.map (fun c => if c = old then new else c) := by
  induction s generalizing n with
  | nil => rfl
  | cons c rest ih =>
    cases n with
    | zero =>
      have hz : Count (c :: rest) old = 0 := Nat.le_zero.mp hn
      rw [map_of_Count_zero old new _ hz]
      rfl
    | succ k =>
      by_cases hco : c = old
      · have hk : Count rest old ≤ k := by
          simp only [Count, hco, if_true] at hn
          omega
        simp [Replace.go, hco, ih k hk]
      · have hk : Count rest old ≤ k + 1 := by
          simpa only [Count, hco, if_false] using hn
        simp [Replace.go, hco, ih (k + 1) hk]

theorem Field.Id_eq_map (f : Field) :
    f.Id = f.Name.map (fun c => if c = (46 : Byte) then (95 : Byte) else c) := by
  have h1 : ¬ ([(46 : Byte)] = [(95 : Byte)] ∨ (-1 : Int) = 0) := by decide
  have h2 : ((-1 : Int) < 0 ∨ (Count f.Name 46 : Int) < -1) := Or.inl (by decide)
  unfold Field.Id Replace
  rw [if_neg h1]
  by_cases hc : Count f.Name 46 = 0
  · rw [if_pos hc, map_of_Count_zero _ _ _ hc]
  · rw [if_neg hc, if_pos h2]
    exact Replace_go_all 46 95 f.Name _ (Nat.le_refl _)

/-- C12: `Field.Id` replaces every '.' by '_'.  For every field name, `Id()` has the
length of the name and contains no '.'; at every position it holds '_' exactly when the
name holds '.' or '_' there, and it holds the byte of the name wherever that byte is not
'.'; it equals the name when the name has no '.'.  The name "booking.CheckInDate" gives
"booking_CheckInDate". -/
theorem Field_Id_replaces_every_dot (f : Field) :
    f.Id.length = f.Name.length ∧
    (46 : Byte) ∉ f.Id ∧
    (∀ (i : Nat) (c : Byte), f.Name[i]? = some c →
      (f.Id[i]? = some (95 : Byte) ↔ c = 46 ∨ c = 95)) ∧
    (∀ (i : Nat) (c : Byte), f.Name[i]? = some c → c ≠ 46 → f.Id[i]? = some c) ∧
    ((46 : Byte) ∉ f.Name → f.Id = f.Name) ∧
    Field.Id ⟨str "booking.CheckInDate", none, []⟩ = str "booking_CheckInDate" := by
  have h9546 : ¬ (95 : Byte) = 46 := by decide
  refine ⟨?_, ?_, ?_, ?_, ?_, ?_⟩
  · rw [Field.Id_eq_map, List.length_map]
  · rw [Field.Id_eq_map]
    intro hmem
    obtain ⟨c, _, hc⟩ := List.mem_map.mp hmem
    by_cases hco : c = 46
    · rw [if_pos hco] at hc
      exact h9546 hc
    · rw [if_neg hco] at hc
      exact hco hc
  · intro i c hi
    rw [Field.Id_eq_map, List.getElem?_map, hi]
    by_cases hco : c = 46
    · simp [hco]
    · simp [hco]
  · intro i c hi hco
    rw [Field.Id_eq_map, List.getElem?_map, hi]
    simp [hco]
  · intro hno
    rw [Field.Id_eq_map]
    have hall : ∀ c ∈ f.Name, (if c = (46 : Byte) then (95 : Byte) else c) = c := by
      intro c hc
      have hco : ¬ c = 46 := fun e => hno (e ▸ hc)
      rw [if_neg hco]
    calc f.Name.map (fun c => if c = (46 : Byte) then (95 : Byte) else c)
        = f.Name.map id := List.map_congr_left hall
      _ = f.Name := List.map_id _
  · decide

/-! ## `ValidationResult.Key` and `ValidationResult.Message` -/

theorem Heap.read_write_same (h : Heap) (p : Ptr) (e0 e : ValidationError)
    (hp : h.read p = some e0) : (h.write p e).read p = some e := by
  simp only [Heap.read, List.get?_eq_getElem?] at hp
  have hlt : p < h.cells.length := by
    by_contra hge
    rw [List.getElem?_eq_none (Nat.le_of_not_lt hge)] at hp
    exact Option.noConfusion hp
  simp [Heap.write, Heap.read, List.getElem?_set_self hlt]

theorem Heap.read_write_other (h : Heap) (p q : Ptr) (e : ValidationError) (hq : q ≠ p) :
    (h.write p e).read q = h.read q := by
  have hne : p ≠ q := fun e2 => hq e2.symm
  simp [Heap.write, Heap.read, List.getElem?_set_ne hne]

theorem Key_value (h : Heap) (r : ValidationResult) (p : Ptr) (e : ValidationError)
    (key : GoString) (hr : r.Error = some p) (hp : h.read p = some e) :
    ValidationResult.Key h r key = some (r, h.write p { Message := e.Message, Key := key }) := by
  simp [ValidationResult.Key, hr, hp]

theorem Message_value {Arg : Type} (sprintf : GoString → List Arg → GoString) (h : Heap)
    (r : ValidationResult) (p : Ptr) (e : ValidationError) (message : GoString)
    (hr : r.Error = some p) (hp : h.read p = some e) :
    ValidationResult.Message sprintf h r message [] =
      some (r, h.write p { Message := message, Key := e.Key }) := by
  simp [ValidationResult.Message, hr, hp]

/-- C11: `Key` and `Message` let the caller attach a key and override the message.  For a
result `r` whose Error is the live error `p`: `r.Key(key)` returns `r` itself and leaves
`p` with the Key `key` and its old Message; `r.Message(message)` without format arguments
returns `r` itself and leaves `p` with exactly the Message `message` and its old Key; in
both cases no other error changes, and `Ok` (a field of the returned `r`) is unchanged; the
calls chain: after `r.Key(key).Message(message)` the error holds both.  For a result
without Error both calls return `r` itself and change nothing. -/
theorem Key_and_Message_attach {Arg : Type} (sprintf : GoString → List Arg → GoString)
    (h : Heap) (r : ValidationResult) :
    (∀ p e, r.Error = some p → h.read p = some e →
      (∀ key, ∃ h2, ValidationResult.Key h r key = some (r, h2) ∧
        h2.read p = some { Message := e.Message, Key := key } ∧
        ∀ q, q ≠ p → h2.read q = h.read q) ∧
      (∀ message, ∃ h2, ValidationResult.Message sprintf h r message [] = some (r, h2) ∧
        h2.read p = some { Message := message, Key := e.Key } ∧
        ∀ q, q ≠ p → h2.read q = h.read q) ∧
      (∀ key message, ∃ h2 h3, ValidationResult.Key h r key = some (r, h2) ∧
        ValidationResult.Message sprintf h2 r message [] = some (r, h3) ∧
        h3.read p = some { Message := message, Key := key } ∧
        ∀ q, q ≠ p → h3.read q = h.read q)) ∧
    (r.Error = none →
      (∀ key, ValidationResult.Key h r key = some (r, h)) ∧
      (∀ message args, ValidationResult.Message sprintf h r message args = some (r, h))) := by
  refine ⟨fun p e hr hp => ⟨fun key => ?_, fun message => ?_, fun key message => ?_⟩,
    fun hr => ⟨fun key => ?_, fun message args => ?_⟩⟩
  · exact ⟨_, Key_value h r p e key hr hp, Heap.read_write_same h p e _ hp,
      fun q hq => Heap.read_write_other h p q _ hq⟩
  · exact ⟨_, Message_value sprintf h r p e message hr hp, Heap.read_write_same h p e _ hp,
      fun q hq => Heap.read_write_other h p q _ hq⟩
  · have hp2 : (h.write p { Message := e.Message, Key := key }).read p =
        some { Message := e.Message, Key := key } := Heap.read_write_same h p e _ hp
    refine ⟨_, _, Key_value h r p e key hr hp,
      Message_value sprintf _ r p _ message hr hp2, Heap.read_write_same _ p _ _ hp2, ?_⟩
    intro q hq
    rw [Heap.read_write_other _ p q _ hq, Heap.read_write_other _ p q _ hq]
  · simp [ValidationResult.Key, hr]
  · simp [ValidationResult.Message, hr]

/-- Witness of C11: the failing result of a "Required" check gets the key "name". -/
theorem Key_and_Message_attach_witness :
    ((⟨some 0, false⟩ : ValidationResult).Error = some 0 ∧ (⟨[⟨str "Required", []⟩]⟩ : Heap).read 0 = some ⟨str "Required", []⟩) ∧
    ∃ h2, ValidationResult.Key (⟨[⟨str "Required", []⟩]⟩ : Heap) (⟨some 0, false⟩ : ValidationResult) (str "name") = some ((⟨some 0, false⟩ : ValidationResult), h2) ∧
      h2.read 0 = some { Message := str "Required", Key := str "name" } ∧
      ∀ q, q ≠ 0 → h2.read q = (⟨[⟨str "Required", []⟩]⟩ : Heap).read q :=
  ⟨⟨rfl, rfl⟩,
   ((Key_and_Message_attach (fun (m : GoString) (_ : List Nat) => m) (⟨[⟨str "Required", []⟩]⟩ : Heap) (⟨some 0, false⟩ : ValidationResult)).1 0 ⟨str "Required", []⟩ rfl rfl).1 (str "name")⟩

end Revel
